import Mathlib

/-!
Verification of the Confluence HTML conversion tool.

The definitions below are a shallow embedding of the Python sources
(`src/core/html_cleaner.py`, `src/core/file_processor.py`,
`src/core/document_tree.py`).  HTML documents are modelled as rose trees
(`HNode`/`HForest`), element attributes as association lists, and the
`class` attribute as a token list, matching BeautifulSoup's data model.
Each pass of the cleaning pipeline that a claim touches is translated
into a Lean function; the theorems at the end of the file settle the
claims against those functions.
-/

mutual
/-- An HTML node as BeautifulSoup presents it: a text node
(`NavigableString`), a comment, or an element with a tag name, an
association list of plain attributes, a token list for the `class`
attribute (BeautifulSoup stores `class` as a list; an element without a
`class` attribute is modelled by the empty token list) and a forest of
children. `HForest` is the mutual list type so that all traversals are
structural recursions. -/
inductive HNode where
  | text : String → HNode
  | comment : String → HNode
  | elem : String → List (String × String) → List String → HForest → HNode
/-- The forest of children of an element, as a mutual inductive. -/
inductive HForest where
  | nil : HForest
  | cons : HNode → HForest → HForest
end

deriving instance DecidableEq for HNode

deriving instance DecidableEq for HForest

/-- Build a forest from a list of nodes (convenience for writing documents). -/
def ofL : List HNode → HForest
  | [] => .nil
  | n :: ns => .cons n (ofL ns)

/-- Concatenate two forests. -/
def HForest.append : HForest → HForest → HForest
  | .nil, g => g
  | .cons n f, g => .cons n (f.append g)

/-- The nodes of a forest as a list. -/
def HForest.toList : HForest → List HNode
  | .nil => []
  | .cons n f => n :: f.toList

mutual
/-- `get_text()` of BeautifulSoup: concatenation of all descendant text
nodes, in document order (comments are `NavigableString`s that
`get_text` skips only in newer bs4; the repository reads `.text` on
elements whose subtrees carry no comments, and we follow `get_text`'s
element/text behaviour). -/
def HNode.textContent : HNode → String
  | .text s => s
  | .comment _ => ""
  | .elem _ _ _ ch => ch.textContent

/-- Text content of a forest. -/
def HForest.textContent : HForest → String
  | .nil => ""
  | .cons n f => n.textContent ++ f.textContent
end

mutual
/-- All elements with the given tag name in the subtree of a node, in
pre-order — the order of BeautifulSoup's `find_all(tag)`. -/
def HNode.findAllTag (t : String) : HNode → List HNode
  | .elem tg a c ch =>
      (if tg = t then [.elem tg a c ch] else []) ++ ch.findAllTag t
  | _ => []

/-- All elements with the given tag name in a forest, in pre-order. -/
def HForest.findAllTag (t : String) : HForest → List HNode
  | .nil => []
  | .cons n f => n.findAllTag t ++ f.findAllTag t
end

mutual
/-- First element with the given tag name (pre-order), as
BeautifulSoup's `find(tag)` / `soup.<tag>`. -/
def HNode.findFirstTag (t : String) : HNode → Option HNode
  | .elem tg a c ch =>
      if tg = t then some (.elem tg a c ch) else ch.findFirstTag t
  | _ => none

/-- First element with the given tag name in a forest (pre-order). -/
def HForest.findFirstTag (t : String) : HForest → Option HNode
  | .nil => none
  | .cons n f =>
      match n.findFirstTag t with
      | some r => some r
      | none => f.findFirstTag t
end

mutual
/-- First element with the given tag and `id` attribute value
(pre-order), as `soup.find(tag, id=...)`. -/
def HNode.findTagId (t i : String) : HNode → Option HNode
  | .elem tg a c ch =>
      if tg = t ∧ (a.lookup "id" = some i) then some (.elem tg a c ch)
      else ch.findTagId t i
  | _ => none

/-- First element with the given tag and `id` in a forest (pre-order). -/
def HForest.findTagId (t i : String) : HForest → Option HNode
  | .nil => none
  | .cons n f =>
      match n.findTagId t i with
      | some r => some r
      | none => f.findTagId t i
end

mutual
/-- First element with the given tag carrying the given class token
(pre-order), as `find(tag, class_=...)`. -/
def HNode.findTagClass (t c : String) : HNode → Option HNode
  | .elem tg a cs ch =>
      if tg = t ∧ c ∈ cs then some (.elem tg a cs ch)
      else ch.findTagClass t c
  | _ => none

/-- First element with the given tag and class token in a forest. -/
def HForest.findTagClass (t c : String) : HForest → Option HNode
  | .nil => none
  | .cons n f =>
      match n.findTagClass t c with
      | some r => some r
      | none => f.findTagClass t c
end

/-- Children of an element (empty forest for text and comment nodes). -/
def HNode.children : HNode → HForest
  | .elem _ _ _ ch => ch
  | _ => .nil

/-- Class token list of an element (`tag.get('class', [])`). -/
def HNode.classes : HNode → List String
  | .elem _ _ cs _ => cs
  | _ => []

/-! ## Status macros (`HTMLCleaner._process_status_macros`) -/
/-- The `status_class_mapping` dictionary of
`HTMLCleaner._process_status_macros`. -/
def status_class_mapping : List (String × String) :=
  [("aui-lozenge-success", "status-green"),
   ("aui-lozenge-error", "status-red"),
   ("aui-lozenge-current", "status-yellow"),
   ("aui-lozenge-complete", "status-blue"),
   ("aui-lozenge-progress", "status-purple"),
   ("aui-lozenge-moved", "status-teal"),
   ("aui-lozenge", "status-gray")]

/-- Dictionary lookup `status_class_mapping[cls]`, `none` when
`cls in status_class_mapping` is false. -/
def lookupStatus (c : String) : Option String :=
  status_class_mapping.lookup c

/-- The loop of `_process_status_macros` choosing the colour token:
start from `'status-gray'` and overwrite with `status_class_mapping[cls]`
for every class `cls` of the span that is present in the mapping. -/
def statusClassFor (classes : List String) : String :=
  classes.foldl (fun acc c => (lookupStatus c).getD acc) "status-gray"

/-- The `<strong>` replacement element built by
`_process_status_macros`: it carries the matched colour class and the
span's `get_text(strip=True)` text. -/
def statusStrong (classes : List String) (textStripped : String) : HNode :=
  .elem "strong" [] [statusClassFor classes] (ofL [.text textStripped])

/-- Replacement performed on one `span.status-macro`: the `<strong>`
element, wrapped in a fresh `<p>` when the span's parent is not a
paragraph. -/
def processStatusSpan (classes : List String) (textStripped : String)
    (parentIsP : Bool) : HNode :=
  if parentIsP then statusStrong classes textStripped
  else .elem "p" [] [] (ofL [statusStrong classes textStripped])

/-- The seven colour tokens of the conversion. -/
def statusColorTokens : List String :=
  ["status-gray", "status-green", "status-red", "status-yellow",
   "status-blue", "status-purple", "status-teal"]

/-! ## Vendor class denylist and table cleanup
(`HTMLCleaner.confluence_classes`, `HTMLCleaner._clean_tables`,
`HTMLCleaner._clean_attributes_and_classes`) -/
/-- The `confluence_classes` denylist set of `HTMLCleaner.__init__`
(a Python `set`; only membership matters). -/
def confluence_classes : List String :=
  ["theme-default", "aui-theme-default", "first", "pagetitle", "wiki-content", "group",
   "contentLayout2", "columnLayout", "fixed-width", "cell", "normal", "innerCell",
   "toc-macro", "toc-indentation", "confluenceTable", "confluenceTd", "emoticon",
   "emoticon-blue-star", "image-center-wrapper", "confluence-embedded-image", "image-center",
   "panel", "panelContent", "inline-task-list", "placeholder-inline-tasks", "confluence-userlink",
   "user-mention", "current-user-mention", "date-upcoming", "date-future", "confluenceTh",
   "confluence-information-macro", "confluence-information-macro-information", "aui-icon",
   "aui-icon-small", "aui-iconfont-info", "confluence-information-macro-icon",
   "confluence-information-macro-body", "confluence-embedded-file-wrapper", "expand-container",
   "expand-control", "expand-control-icon", "expand-control-image", "expand-control-text",
   "expand-content", "status-macro", "aui-lozenge", "aui-lozenge-progress", "aui-lozenge-complete",
   "table-wrapper", "task-blanket", "aui", "tasks-table-interactive", "tasks-report",
   "tablesorter-headerRow", "header-description", "tasks-table-column-unsortable", "header-duedate",
   "header-assignee", "header-location", "tasks-report-date", "tasks-report-assignee",
   "task-location", "greybox", "footer-body", "external-link", "url", "fn", "aui-page-panel", "view",
   "data-colorid", "decision-list"]

/-- The class filtering shared by `_clean_attributes_and_classes`,
`_process_links`, `_clean_tables` (tables and cells) and
`_clean_lists`: keep the tokens not in the denylist. -/
def removeConfluenceClasses (cls : List String) : List String :=
  cls.filter (fun c => decide (c ∉ confluence_classes))

/-- One class-filtering site: filter the token list, and delete the
`class` attribute entirely (`none`) when no token remains. -/
def cleanClassAttr (cls : List String) : Option (List String) :=
  if removeConfluenceClasses cls = [] then none
  else some (removeConfluenceClasses cls)

/-- Net effect of `_clean_tables` on one table’s class token list
(the element’s state after `_clean_attributes_and_classes` already ran
is the argument; an absent attribute is the empty list): filter the
vendor classes, deleting the attribute when empty, then re-read with
default `[]` and append `’custom-table’`. -/
def clean_tables_classes (cls : List String) : List String :=
  (match cleanClassAttr cls with
   | some kept => kept
   | none => []) ++ ["custom-table"]

/-- The class attribute of a table after the pipeline’s two passes that
touch it: `_clean_attributes_and_classes` (filter or delete) followed by
`_clean_tables` (filter again, then always append `custom-table`). -/
def table_class_pipeline (cls : List String) : Option (List String) :=
  some (clean_tables_classes ((cleanClassAttr cls).getD []))

/-! ## Style injection (`HTMLCleaner._inject_custom_styles`) -/
/-- The `custom_css` literal of `_inject_custom_styles`. -/
def custom_css : String :=
  "\n            body \x7b\n                font-family: \x27DM Sans\x27, sans-serif;\n                color: #404040;\n                line-height: 1.5;\n                margin: 20px;\n            \x7d\n\n            h1 \x7b\n                font-family: \x27Roboto\x27, sans-serif;\n                color: #00c65e;\n            \x7d\n\n            h2, h3, h4, h5, h6 \x7b\n                font-family: \x27Roboto\x27, sans-serif;\n                color: #046062;\n            \x7d\n\n            p \x7b\n                margin-bottom: 1.5em;\n            \x7d\n\n            strong \x7b\n                font-weight: bold;\n            \x7d\n\n            em \x7b\n                color: #00c65e;\n                font-style: italic;\n            \x7d\n\n            a \x7b\n                color: #00c65e;\n                text-decoration: none;\n            \x7d\n\n            a:hover \x7b\n                text-decoration: underline;\n            \x7d\n\n            ul \x7b\n                margin-bottom: 1.5em;\n            \x7d\n\n            li \x7b\n                margin-left: 20px;\n                list-style-type: disc;\n            \x7d\n\n            img \x7b\n                border: 1px solid #00c65e; \n            \x7d\n\n            /* Table Styles */\n            table \x7b\n                width: 100%;\n                border-collapse: collapse;\n                margin-bottom: 1.5em;\n            \x7d\n\n            th, td \x7b\n                padding: 12px;\n                text-align: left;\n                border-bottom: 1px solid #ddd;\n                vertical-align: top;\n            \x7d\n\n            th \x7b\n                background-color: #f2f2f2;\n                font-weight: bold;\n            \x7d\n\n            tr:nth-child(even) \x7b\n                background-color: #fafafa;\n            \x7d\n\n            tr:hover \x7b\n                background-color: #f5f5f5;\n            \x7d\n\n            /* Column Width Classes */\n            .column-25 \x7b width: 25%; \x7d\n            .column-33 \x7b width: 33.333%; \x7d\n            .column-50 \x7b width: 50%; \x7d\n            .column-67 \x7b width: 66.666%; \x7d\n            .column-75 \x7b width: 75%; \x7d\n            .column-100 \x7b width: 100%; \x7d\n\n            /* Status Styles */\n            .status-gray \x7b\n                background-color: #7A869A;\n                color: #FFFFFF;\n                padding: 2px 6px;\n                border-radius: 3px;\n            \x7d\n            .status-green \x7b\n                background-color: #36B37E;\n                color: #FFFFFF;\n                padding: 2px 6px;\n                border-radius: 3px;\n            \x7d\n            .status-red \x7b\n                background-color: #FF5630;\n                color: #FFFFFF;\n                padding: 2px 6px;\n                border-radius: 3px;\n            \x7d\n            .status-yellow \x7b\n                background-color: #FFAB00;\n                color: #000000;\n                padding: 2px 6px;\n                border-radius: 3px;\n            \x7d\n            .status-blue \x7b\n                background-color: #0065FF;\n                color: #FFFFFF;\n                padding: 2px 6px;\n                border-radius: 3px;\n            \x7d\n            .status-purple \x7b\n                background-color: #6554C0;\n                color: #FFFFFF;\n                padding: 2px 6px;\n                border-radius: 3px;\n            \x7d\n            .status-teal \x7b\n                background-color: #00B8D9;\n                color: #FFFFFF;\n                padding: 2px 6px;\n                border-radius: 3px;\n            \x7d\n            /* Expand Box Styles */\n            .expand-box \x7b\n                border: 1px solid #ccc;\n                padding: 10px;\n                margin-bottom: 1.5em;\n                background-color: #f9f9f9;\n            \x7d\n\n            .expand-box em \x7b\n                display: block;\n                font-style: italic;\n                margin-bottom: 0.5em;\n            \x7d\n            /* Decision Box Styles */\n            .decision-box \x7b\n                border: 1px solid #00c65e;\n                padding: 10px;\n                margin-bottom: 1.5em;\n                background-color: #e6f9ee;\n            \x7d\n\n            .decision-box em \x7b\n                display: block;\n                font-style: italic;\n                color: #00c65e;\n                margin-bottom: 0.5em;\n            \x7d\n        "

/-- The Google-Fonts `<link>` element appended by
`_inject_custom_styles`. -/
def fonts_link_tag : HNode :=
  .elem "link"
    [("rel", "stylesheet"),
     ("href", "https://fonts.googleapis.com/css2?family=DM+Sans:wght@400;700&family=Roboto:wght@400;700&display=swap")]
    [] .nil

/-- The `<style>` element with `custom_css` appended by
`_inject_custom_styles`. -/
def custom_style_tag : HNode :=
  .elem "style" [] [] (ofL [.text custom_css])

/-- Effect of `_inject_custom_styles` on the children of the `head`
element: append the fonts link and the custom style block. -/
def inject_styles_head (headChildren : List HNode) : List HNode :=
  headChildren ++ [fonts_link_tag, custom_style_tag]

/-! ## Image processing (`HTMLCleaner._process_images`) -/
/-- Attribute association list of an element. -/
def HNode.attrs : HNode → List (String × String)
  | .elem _ a _ _ => a
  | _ => []

/-- Set an attribute, replacing in place when the key exists (Python
dict update keeps the key's position) and appending otherwise. -/
def setAttr (k v : String) : List (String × String) → List (String × String)
  | [] => [(k, v)]
  | (k', v') :: rest =>
      if k' = k then (k, v) :: rest else (k', v') :: setAttr k v rest

/-- Delete an attribute by key. -/
def deleteAttr (k : String) (a : List (String × String)) :
    List (String × String) :=
  a.filter (fun p => decide (p.1 ≠ k))

/-- `'needle' in hay` for Python strings: substring test. -/
def containsSub (needle hay : String) : Bool :=
  decide (needle.data <:+: hay.data)

/-- `str.startswith` (kernel-reducible, unlike `String.startsWith`). -/
def strStartsWith (s pre : String) : Bool :=
  pre.data.isPrefixOf s.data

/-- `str.endswith`. -/
def strEndsWith (s suf : String) : Bool :=
  suf.data.reverse.isPrefixOf s.data.reverse

/-- Python `str.strip()`: remove leading and trailing whitespace. -/
def pyStrip (s : String) : String :=
  String.mk ((s.data.dropWhile Char.isWhitespace).reverse.dropWhile
    Char.isWhitespace).reverse

/-- A character of a URL scheme (`urllib.parse`): letters, digits,
`+`, `-`, `.`. -/
def isSchemeChar (c : Char) : Bool :=
  c.isAlphanum || c = '+' || c = '-' || c = '.'

/-- The `path` component of `urllib.parse.urlparse`: the fragment
(from the first `#`) and the query (from the first `?`) are cut off,
then a leading `scheme:` (letters-first token of scheme characters) and
a `//netloc` component are removed. -/
def urlPath (src : String) : String :=
  let s := src.data.takeWhile (fun c => c ≠ '#')
  let s := s.takeWhile (fun c => c ≠ '?')
  let pre := s.takeWhile (fun c => c ≠ ':')
  let s :=
    if (s.drop pre.length) ≠ [] ∧ pre ≠ [] ∧ pre.all isSchemeChar = true ∧
        (pre.headD ' ').isAlpha = true then
      (s.drop pre.length).drop 1
    else s
  let s :=
    match s with
    | '/' :: '/' :: rest => rest.dropWhile (fun c => c ≠ '/')
    | _ => s
  String.mk s

/-- The absoluteness test of `_process_images`:
`src.startswith(('http://', 'https://', 'file://', '/'))`. -/
def isAbsoluteish (p : String) : Bool :=
  strStartsWith p "http://" || strStartsWith p "https://" ||
    strStartsWith p "file://" || strStartsWith p "/"

/-- `os.path.join` for the two-component case with a relative second
component (the only case `_process_images` reaches: the path did not
start with `/`). -/
def ospathJoin (a b : String) : String :=
  if a = "" ∨ strEndsWith a "/" = true then a ++ b else a ++ "/" ++ b

/-- `urllib.parse.urljoin(base, rel)` for a relative reference, modelled
as replacing everything after the last `/` of the base with the
reference.  (In the repository this branch is dead: `base_url` is read
with `getattr(self.soup, 'base_url', None)` and BeautifulSoup objects
carry no such attribute, so it is always `None`.) -/
def urljoin (base rel : String) : String :=
  String.mk ((base.data.reverse.dropWhile (fun c => c ≠ '/')).reverse) ++ rel

/-- The attribute allow-list of `_process_images`. -/
def allowed_img_attrs : List String :=
  ["src", "alt", "title", "width", "height", "style"]

/-- `HTMLCleaner._process_images` on one `img` element's attributes:
keep only the allow-listed attributes, guarantee `alt`, and rewrite
`src` — the query-stripped path is computed into a local, but only
written back in the relative-path branch (resolution against
`base_url`, else against `os.getcwd()` joined with `args.input_dir`);
finally drop `style` when it mentions `confluence`. -/
def process_image (baseUrl : Option String) (inputDir cwd : String)
    (attrs : List (String × String)) : List (String × String) :=
  let a1 := attrs.filter (fun p => decide (p.1 ∈ allowed_img_attrs))
  let a2 := if (a1.map Prod.fst).contains "alt" then a1 else a1 ++ [("alt", "")]
  let a3 :=
    match a2.lookup "src" with
    | some s =>
        if s ≠ "" then
          let path := urlPath s
          if isAbsoluteish path = false then
            let newSrc :=
              match baseUrl with
              | some b => urljoin b path
              | none => ospathJoin (ospathJoin cwd inputDir) path
            setAttr "src" newSrc a2
          else a2
        else a2
    | none => a2
  match a3.lookup "style" with
  | some st => if containsSub "confluence" st then deleteAttr "style" a3 else a3
  | none => a3

/-! ## Column layouts (`HTMLCleaner._convert_column_layouts`) -/
/-- The `layout_types` list of `_convert_column_layouts`. -/
def layout_types : List String :=
  ["two-equal", "two-right-sidebar", "two-left-sidebar", "three-equal",
   "three-with-sidebars"]

/-- The `width_class_mapping` of `_convert_column_layouts`: width
percentage → CSS class. -/
def width_class_mapping : List (String × String) :=
  [("25%", "column-25"), ("33%", "column-33"), ("50%", "column-50"),
   ("67%", "column-67"), ("75%", "column-75"), ("100%", "column-100")]

/-- The if/elif chain of `_convert_column_layouts` choosing the column
widths for a layout type (default: `100%` per cell). -/
def col_widths (layoutType : String) (numCells : Nat) : List String :=
  if layoutType = "two-equal" then ["50%", "50%"]
  else if layoutType = "two-right-sidebar" then ["33%", "67%"]
  else if layoutType = "two-left-sidebar" then ["67%", "33%"]
  else if layoutType = "three-equal" then ["33%", "33%", "33%"]
  else if layoutType = "three-with-sidebars" then ["25%", "50%", "25%"]
  else List.replicate numCells "100%"

/-- The layout type of a layout div: the `data-layout` attribute when
set, else the first class that is a known layout type. -/
def layoutTypeOf (d : HNode) : Option String :=
  match d.attrs.lookup "data-layout" with
  | some lt => some lt
  | none => d.classes.find? (fun c => decide (c ∈ layout_types))

/-- `find_all('div', class_='cell', recursive=False)`: is this node a
div carrying the `cell` class? -/
def isCellDiv : HNode → Bool
  | .elem "div" _ cs _ => decide ("cell" ∈ cs)
  | _ => false

/-- The direct-children cell divs of a layout div. -/
def directCellDivs (d : HNode) : List HNode :=
  d.children.toList.filter isCellDiv

/-- The content moved into a table cell: the contents of the cell's
`div.innerCell` when one exists among its descendants, else the cell
div's own contents. -/
def cellInnerContents (cell : HNode) : List HNode :=
  match cell.children.findTagClass "div" "innerCell" with
  | some ic => ic.children.toList
  | none => cell.children.toList

/-- One `<td>` built by `_convert_column_layouts`: its class is the
width class when `width_class_mapping` knows the width (otherwise the
empty mapping default `''` means no class is set), and its children are
the moved cell contents. -/
def mkTd (width : String) (contents : List HNode) : HNode :=
  .elem "td" []
    (match width_class_mapping.lookup width with
     | some wc => [wc]
     | none => [])
    (ofL contents)

/-- `_convert_column_layouts` on one matched layout div: `none` when the
layout type cannot be identified (`continue`) or when the div has more
cells than the width table (the `col_widths[idx]` IndexError is caught
and the div is skipped); otherwise the replacement `<table>` with a
single `<tr>` holding one `<td>` per cell div. -/
def convert_column_layout (d : HNode) : Option HNode :=
  match layoutTypeOf d with
  | none => none
  | some lt =>
      let cells := directCellDivs d
      let widths := col_widths lt cells.length
      if cells.length ≤ widths.length then
        some (.elem "table" [] [] (ofL [.elem "tr" [] [] (ofL
          ((cells.zip widths).map
            (fun p => mkTd p.2 (cellInnerContents p.1))))]))
      else none

/-- The column count each layout variant is meant to produce. -/
def expected_cols (lt : String) : Nat := (col_widths lt 0).length

/-- The percentage denoted by a width class (`column-33` stands for the
`33%` entry of the mapping, and so on). -/
def class_percent (wc : String) : Nat :=
  if wc = "column-25" then 25
  else if wc = "column-33" then 33
  else if wc = "column-50" then 50
  else if wc = "column-67" then 67
  else if wc = "column-75" then 75
  else if wc = "column-100" then 100
  else 0

/-- Sum of the percentages of the width classes assigned to a list of
cells. -/
def assignedPercentSum (tds : List HNode) : Nat :=
  (tds.map (fun td => (td.classes.map class_percent).sum)).sum

/-! ## Breadcrumb extraction
(`DocumentTreeBuilder.extract_breadcrumbs`,
`FileProcessor._extract_breadcrumbs`, `FileProcessor._sanitize_filename`) -/
/-- `DocumentTreeBuilder.extract_breadcrumbs` (document_tree.py): the
stripped text of every anchor inside `div#breadcrumb-section`, in
document order, keeping only the non-empty ones; the empty list when
the container is absent. -/
def extract_breadcrumbs_tree (doc : HForest) : List String :=
  match doc.findTagId "div" "breadcrumb-section" with
  | none => []
  | some d =>
      ((d.children.findAllTag "a").map
        (fun a => pyStrip a.textContent)).filter (fun s => decide (s ≠ ""))

/-- The characters removed by `_sanitize_filename`
(`re.sub(r'[<>:"/\\|?*]', '', ...)`). -/
def invalidFilenameChar (c : Char) : Bool :=
  c = '<' || c = '>' || c = ':' || c = '"' || c = '/' || c = '\\' ||
    c = '|' || c = '?' || c = '*'

/-- `re.sub(r'\s+', '-', ...)`: replace every maximal whitespace run
with a single hyphen (the flag records whether the previous character
was part of a run). -/
def collapseWsAux : Bool → List Char → List Char
  | _, [] => []
  | prevWs, c :: rest =>
      if c.isWhitespace then
        (if prevWs then [] else ['-']) ++ collapseWsAux true rest
      else c :: collapseWsAux false rest

/-- Drop leading occurrences of a character. -/
def dropLead (ch : Char) (l : List Char) : List Char :=
  l.dropWhile (fun c => c = ch)

/-- Drop trailing occurrences of a character. -/
def dropTrail (ch : Char) (l : List Char) : List Char :=
  ((l.reverse).dropWhile (fun c => c = ch)).reverse

/-- Python `str.strip('-')`: drop the character from both ends. -/
def stripChar (ch : Char) (l : List Char) : List Char :=
  dropTrail ch (dropLead ch l)

/-- `FileProcessor._sanitize_filename`: `"untitled"` for the empty
string, else remove the invalid filename characters, replace whitespace
runs with hyphens, strip hyphens from both ends, and fall back to
`"untitled"` when nothing remains. -/
def sanitize_filename (filename : String) : String :=
  if filename = "" then "untitled"
  else if stripChar '-' (collapseWsAux false
      (filename.data.filter (fun c => !invalidFilenameChar c))) = [] then
    "untitled"
  else
    String.mk (stripChar '-' (collapseWsAux false
      (filename.data.filter (fun c => !invalidFilenameChar c))))

/-- The sanitization exactly as claim C10 words it (remove the invalid
characters, replace whitespace runs by a hyphen, strip hyphens), with
no `"untitled"` fallback — the claim says crumbs that sanitize to the
empty string are skipped. -/
def spec_sanitize (s : String) : String :=
  String.mk (stripChar '-'
    (collapseWsAux false (s.data.filter (fun c => !invalidFilenameChar c))))

/-- BeautifulSoup's `Tag.string`: the single `NavigableString` child if
there is exactly one child and it is a string (comments are
`NavigableString`s too), the single child's `.string` if the only child
is a tag, `None` otherwise. -/
def HNode.nodeString : HNode → Option String
  | .text s => some s
  | .comment s => some s
  | .elem _ _ _ (.cons c .nil) => c.nodeString
  | .elem _ _ _ _ => none

/-- `FileProcessor._extract_breadcrumbs`: for every `span` inside
`div#breadcrumb-section`, take its first anchor, require
`isinstance(link.string, NavigableString)`, sanitize the stripped
string and append it when non-empty (the emptiness test is the
`if breadcrumb:` of the source). -/
def extract_breadcrumbs_fp (doc : HForest) : List String :=
  match doc.findTagId "div" "breadcrumb-section" with
  | none => []
  | some d =>
      (d.children.findAllTag "span").foldr
        (fun sp acc =>
          match sp.children.findFirstTag "a" with
          | some link =>
              match link.nodeString with
              | some s =>
                  let b := sanitize_filename (pyStrip s)
                  if b ≠ "" then b :: acc else acc
              | none => acc
          | none => acc) []

/-- The example document of the spec:
`<div id="breadcrumb-section"><span><a>Space</a></span><span><a>Parent</a></span></div>`. -/
def breadcrumb_example_doc : HForest :=
  ofL [.elem "div" [("id", "breadcrumb-section")] []
    (ofL [.elem "span" [] [] (ofL [.elem "a" [] [] (ofL [.text "Space"])]),
          .elem "span" [] [] (ofL [.elem "a" [] [] (ofL [.text "Parent"])])])]

/-- A breadcrumb container whose single anchor label `???` consists
only of characters the sanitizer removes. -/
def c10_cex_doc : HForest :=
  ofL [.elem "div" [("id", "breadcrumb-section")] []
    (ofL [.elem "span" [] []
      (ofL [.elem "a" [] [] (ofL [.text "???"])])])]

/-! ## The tail of `HTMLCleaner.clean`
(`_add_missing_title`, `_ensure_meta_charset`, `_inject_custom_styles`,
and the doctype-prefixed serialization).  The passes before these only
find and rewrite non-`html` elements; the steps below are the ones that
dereference `soup.html`. -/
mutual
/-- Rewrite the first element with the given tag (pre-order, the node
BeautifulSoup's `find` returns) in place; `none` when no such element
exists. -/
def HNode.mapFirstTag (t : String) (f : HNode → HNode) : HNode → Option HNode
  | .elem tg a c ch =>
      if tg = t then some (f (.elem tg a c ch))
      else (ch.mapFirstTag t f).map (fun ch' => .elem tg a c ch')
  | _ => none

/-- Rewrite the first element with the given tag in a forest. -/
def HForest.mapFirstTag (t : String) (f : HNode → HNode) :
    HForest → Option HForest
  | .nil => none
  | .cons n fr =>
      match n.mapFirstTag t f with
      | some n' => some (.cons n' fr)
      | none => (fr.mapFirstTag t f).map (fun fr' => .cons n fr')
end

mutual
/-- Is there an element with the given tag in this subtree? -/
def HNode.hasTag (t : String) : HNode → Bool
  | .elem tg _ _ ch => tg = t || ch.hasTag t
  | _ => false

/-- Is there an element with the given tag in this forest? -/
def HForest.hasTag (t : String) : HForest → Bool
  | .nil => false
  | .cons n f => n.hasTag t || f.hasTag t
end

mutual
/-- `find('meta', charset=True)`: a `meta` element carrying a `charset`
attribute exists in this subtree. -/
def HNode.hasMetaCharset : HNode → Bool
  | .elem tg a _ ch =>
      (tg = "meta" && (a.lookup "charset").isSome) || ch.hasMetaCharset
  | _ => false

/-- `meta`-with-`charset` search over a forest. -/
def HForest.hasMetaCharset : HForest → Bool
  | .nil => false
  | .cons n f => n.hasMetaCharset || f.hasMetaCharset
end

/-- `tag.append(x)`. -/
def appendChild (x : HNode) : HNode → HNode
  | .elem t a c ch => .elem t a c (ch.append (ofL [x]))
  | n => n

/-- `tag.insert(0, x)`. -/
def prependChild (x : HNode) : HNode → HNode
  | .elem t a c ch => .elem t a c (.cons x ch)
  | n => n

/-- The `<title>` element built by `_add_missing_title`. -/
def titleTag (title : String) : HNode :=
  .elem "title" [] [] (ofL [.text title])

/-- The `<meta charset="UTF-8">` element of `_ensure_meta_charset`. -/
def metaCharsetTag : HNode :=
  .elem "meta" [("charset", "UTF-8")] [] .nil

/-- `HTMLCleaner._add_missing_title`: nothing when a `title` element
exists; else append the title to the head when a head exists; else
create a head holding the title and insert it first into `soup.html`,
which raises (`AttributeError` on `None`) when no `html` element
exists. -/
def add_missing_title (title : String) (doc : HForest) :
    Except String HForest :=
  if (doc.findFirstTag "title").isSome then .ok doc
  else
    match doc.mapFirstTag "head" (appendChild (titleTag title)) with
    | some doc' => .ok doc'
    | none =>
        match doc.mapFirstTag "html"
            (prependChild (.elem "head" [] [] (ofL [titleTag title]))) with
        | some doc' => .ok doc'
        | none => .error "AttributeError: NoneType has no attribute insert"

/-- `HTMLCleaner._ensure_meta_charset`: when a head exists, insert the
charset meta first into it unless one is already present; else create a
head holding the meta and insert it first into `soup.html`, raising
when no `html` element exists. -/
def ensure_meta_charset (doc : HForest) : Except String HForest :=
  match doc.findFirstTag "head" with
  | some hd =>
      if hd.children.hasMetaCharset then .ok doc
      else .ok ((doc.mapFirstTag "head" (prependChild metaCharsetTag)).getD doc)
  | none =>
      match doc.mapFirstTag "html"
          (prependChild (.elem "head" [] [] (ofL [metaCharsetTag]))) with
      | some doc' => .ok doc'
      | none => .error "AttributeError: NoneType has no attribute insert"

mutual
/-- The first loop of `_inject_custom_styles`: decompose every `style`
element whose parent is not `head` (the parent of a top-level node is
the `[document]` object, never `head`). -/
def HNode.stripBodyStyles (inHead : Bool) : HNode → HForest
  | .elem tg a c ch =>
      if tg = "style" ∧ inHead = false then .nil
      else .cons (.elem tg a c (ch.stripBodyStyles (tg = "head"))) .nil
  | n => .cons n .nil

/-- Body-style removal over a forest. -/
def HForest.stripBodyStyles (inHead : Bool) : HForest → HForest
  | .nil => .nil
  | .cons n f => (n.stripBodyStyles inHead).append (f.stripBodyStyles inHead)
end

/-- `HTMLCleaner._inject_custom_styles` at the document level: remove
non-head styles, then append the fonts link and custom style to the
head; when no head exists, a fresh head is created and inserted into
`soup.html` only under the `if self.soup.html:` guard — with no `html`
element the fresh head is never attached and the appends are lost, but
no exception is raised. -/
def inject_custom_styles (doc : HForest) : HForest :=
  match (doc.stripBodyStyles false).findFirstTag "head" with
  | some _ =>
      ((doc.stripBodyStyles false).mapFirstTag "head"
        (fun h => appendChild custom_style_tag
          (appendChild fonts_link_tag h))).getD (doc.stripBodyStyles false)
  | none =>
      match (doc.stripBodyStyles false).mapFirstTag "html"
          (prependChild (.elem "head" [] []
            (ofL [fonts_link_tag, custom_style_tag]))) with
      | some d' => d'
      | none => doc.stripBodyStyles false

/-- Join class tokens with single spaces for serialization. -/
def joinSpace : List String → String
  | [] => ""
  | [s] => s
  | s :: rest => s ++ " " ++ joinSpace rest

/-- Render an attribute list (with the class token list) for
serialization. -/
def renderAttrs (a : List (String × String)) (c : List String) : String :=
  a.foldl (fun acc p => acc ++ " " ++ p.1 ++ "=\"" ++ p.2 ++ "\"") ""
    ++ (if c = [] then "" else " class=\"" ++ joinSpace c ++ "\"")

mutual
/-- Plain serialization of a node (`prettify`'s added indentation
whitespace is not modelled). -/
def HNode.render : HNode → String
  | .text s => s
  | .comment s => "<!--" ++ s ++ "-->"
  | .elem t a c ch =>
      "<" ++ t ++ renderAttrs a c ++ ">" ++ ch.render ++ "</" ++ t ++ ">"

/-- Serialization of a forest. -/
def HForest.render : HForest → String
  | .nil => ""
  | .cons n f => n.render ++ f.render
end

/-- The return statement of `HTMLCleaner.clean`:
`"<!DOCTYPE html>\n" + str(self.soup.html.prettify(...))` — an
`AttributeError` on `None` when the document has no `html` element. -/
def serialize_html (doc : HForest) : Except String String :=
  match doc.findFirstTag "html" with
  | some h => .ok ("<!DOCTYPE html>\n" ++ h.render)
  | none => .error "AttributeError: NoneType has no attribute prettify"

/-- The final steps of `HTMLCleaner.clean`, composed:
`_add_missing_title`; `_ensure_meta_charset`; `_inject_custom_styles`;
serialization with the doctype prefix. -/
def clean_finalize (title : String) (doc : HForest) : Except String String :=
  match add_missing_title title doc with
  | .error e => .error e
  | .ok d1 =>
      match ensure_meta_charset d1 with
      | .error e => .error e
      | .ok d2 => serialize_html (inject_custom_styles d2)

/-! ## Document tree (`document_tree.py`: `TreeNode`, `add_to_tree`,
`generate_table_format`, table export) -/
mutual
/-- `TreeNode` of document_tree.py: a name, an optional file path
(present exactly on document leaves as created by `add_to_tree`), and
children — a Python dict keyed by name, modelled as an
insertion-ordered association list. -/
inductive TreeNode where
  | mk : String → Option String → TChildren → TreeNode

/-- The children dict of a `TreeNode`, in insertion order. -/
inductive TChildren where
  | nil : TChildren
  | cons : String → TreeNode → TChildren → TChildren
end

deriving instance DecidableEq for TreeNode

deriving instance DecidableEq for TChildren

/-- The children entries as a list of pairs. -/
def TChildren.toListC : TChildren → List (String × TreeNode)
  | .nil => []
  | .cons n c rest => (n, c) :: rest.toListC

/-- Dict lookup `children[crumb]`. -/
def assocGet (k : String) : TChildren → Option TreeNode
  | .nil => none
  | .cons n c rest => if n = k then some c else assocGet k rest

/-- Dict assignment `children[k] = v`: replace in place when the key
exists (Python dicts keep the key's position), append otherwise. -/
def assocSet (k : String) (v : TreeNode) : TChildren → TChildren
  | .nil => .cons k v .nil
  | .cons n c rest =>
      if n = k then .cons k v rest else .cons n c (assocSet k v rest)

/-- `DocumentTreeBuilder.add_to_tree`: walk the breadcrumbs creating
missing folder nodes, then store the document as a leaf child named by
its title. -/
def add_to_tree : TreeNode → List String → String → String → TreeNode
  | .mk name path ch, [], title, fp =>
      .mk name path (assocSet title (.mk title (some fp) .nil) ch)
  | .mk name path ch, crumb :: rest, title, fp =>
      .mk name path (assocSet crumb
        (add_to_tree ((assocGet crumb ch).getD (.mk crumb none .nil))
          rest title fp) ch)

/-- `DocumentTreeBuilder.build_tree` over a list of
(breadcrumbs, title, relative path) documents. -/
def build_tree (docs : List (List String × String × String)) : TreeNode :=
  docs.foldl (fun t d => add_to_tree t d.1 d.2.1 d.2.2)
    (.mk "root" none .nil)

/-- `bool(x[1].children)` of the sort key. -/
def hasChildrenB : TreeNode → Bool
  | .mk _ _ .nil => false
  | _ => true

/-- Python `str.lower()` (code-point lowercasing, as `x[0].lower()` in
the sort key). -/
def pyLower (s : String) : String :=
  String.mk (s.data.map Char.toLower)

/-- The sort key of `generate_table_format`:
`(not bool(x[1].children), x[0].lower())`, compared as a Python tuple
(`False < True`, then code-point string order). -/
def keyLE : Bool × String → Bool × String → Bool
  | (b1, s1), (b2, s2) =>
      if b1 = b2 then decide (s1 ≤ s2) else b1 = false

/-- Key of a per-child record `(name, has-children, rows block)`. -/
def recKey (r : String × Bool × List (List String)) : Bool × String :=
  (!r.2.1, pyLower r.1)

/-- Stable insertion into a key-sorted record list (an earlier element
goes before later elements with an equal key, as Python's stable
`sorted`). -/
def insertSorted (x : String × Bool × List (List String)) :
    List (String × Bool × List (List String)) →
    List (String × Bool × List (List String))
  | [] => [x]
  | y :: ys =>
      if keyLE (recKey x) (recKey y) then x :: y :: ys
      else y :: insertSorted x ys

/-- `sorted(node.children.items(), key=...)` as a stable insertion
sort of the per-child records. -/
def sortBlocks (l : List (String × Bool × List (List String))) :
    List (String × Bool × List (List String)) :=
  l.foldr insertSorted []

/-- Concatenate the row blocks of the sorted children, in order — the
loop body of `generate_table_format` appends each child's rows. -/
def joinBlocks (l : List (String × Bool × List (List String))) :
    List (List String) :=
  l.foldr (fun r acc => r.2.2 ++ acc) []

mutual
/-- `DocumentTreeBuilder.generate_table_format` on one node: a path row
for every non-root folder node, then the children's blocks in sorted
order (each child's block depends only on the child and the current
path, so sorting the per-child blocks equals sorting before the
loop). -/
def genTableNode (sf : Bool) : TreeNode → List String → List (List String)
  | .mk name path ch, parentPath =>
      (if name ≠ "root" ∧ path = none then
        [if name ≠ "root" then parentPath ++ [name] else []]
      else [])
      ++ joinBlocks (sortBlocks (genTableChildren sf ch
          (if name ≠ "root" then parentPath ++ [name] else [])))

/-- The per-child records of `generate_table_format`'s loop: a document
child (with a path) contributes one row — its title, with
`" (path)"` appended when `show_filenames` — under the current path; a
folder child contributes its recursive block. -/
def genTableChildren (sf : Bool) :
    TChildren → List String → List (String × Bool × List (List String))
  | .nil, _ => []
  | .cons n c rest, currentPath =>
      (n, hasChildrenB c,
        match c with
        | .mk _ (some p) _ =>
            [currentPath ++ [if sf then n ++ " (" ++ p ++ ")" else n]]
        | .mk nm none ch2 => genTableNode sf (.mk nm none ch2) currentPath)
      :: genTableChildren sf rest currentPath
end

/-- `generate_table_format(self.root)` as called by `export_markdown`. -/
def generate_table_format (sf : Bool) (root : TreeNode) :
    List (List String) :=
  genTableNode sf root []

/-- `sep.join` / `"\n".join` at the character level. -/
def intercalateChar (c : Char) : List (List Char) → List Char
  | [] => []
  | [l] => l
  | l :: rest => l ++ c :: intercalateChar c rest

/-- The table export of `DocumentTreeBuilder.export_markdown`
(format `table`): `"\n".join(self.separator.join(row) for row in rows)`
— the same fields and delimiter `csv.writer` writes for quote-free
fields. -/
def export_table (sep : Char) (sf : Bool) (root : TreeNode) : String :=
  String.mk (intercalateChar '\n'
    ((generate_table_format sf root).map
      (fun row => intercalateChar sep (row.map String.data))))

/-- Split a character list at every occurrence of a character; always
non-empty. -/
def splitChar (c : Char) : List Char → List (List Char)
  | [] => [[]]
  | x :: xs =>
      match splitChar c xs with
      | [] => [[]]
      | r :: rs => if x = c then [] :: r :: rs else (x :: r) :: rs

/-- Modelled from the spec: "parsing the resulting CSV back with the
configured separator" — split the exported text into lines and each
line into fields at the separator (an empty file holds no rows).  The
parser is not part of the repository; this definition follows the
claim's words. -/
def parse_csv (sep : Char) (s : String) : List (List String) :=
  if s = "" then []
  else (splitChar '\n' s.data).map
    (fun line => (splitChar sep line).map String.mk)

/-- The (breadcrumb-path, title) reading of a parsed row: all fields
but the last form the path, the last is the title. -/
def row_pair (row : List String) : List String × String :=
  (row.dropLast, (row.getLast?).getD "")

/-- The set of (breadcrumb-path, title) pairs of a parsed table. -/
def pairs_of_rows (rows : List (List String)) :
    Finset (List String × String) :=
  (rows.map row_pair).toFinset

/-- The set of (breadcrumb-path, title) pairs of the original
documents. -/
def doc_pairs (docs : List (List String × String × String)) :
    Finset (List String × String) :=
  (docs.map (fun d => (d.1, d.2.1))).toFinset

/-- The leaf-insertion fold of `build_tree` over documents with empty
breadcrumb paths. -/
def leaves_fold (docs : List (String × String)) (ch : TChildren) :
    TChildren :=
  docs.foldl (fun ch d => assocSet d.1 (.mk d.1 (some d.2) .nil) ch) ch

/-- An entry of the root's children dict that is a document leaf. -/
def IsLeafEntry (e : String × TreeNode) : Prop :=
  ∃ p, e.2 = .mk e.1 (some p) .nil

/-- The keys of a children dict, in insertion order. -/
def keysC (ch : TChildren) : List String :=
  ch.toListC.map Prod.fst

/-! ## Theorems -/

theorem lookup_mem_values {α β : Type} [BEq α] :
    ∀ (l : List (α × β)) (c : α) (v : β), l.lookup c = some v →
      v ∈ l.map Prod.snd := by
  intro l
  induction l with
  | nil => intro c v h; simp [List.lookup] at h
  | cons p ps ih =>
      intro c v h
      rw [List.lookup_cons] at h
      split at h
      · simp at h; simp [h]
      · simpa using Or.inr (ih c v h)

theorem lookupStatus_mem_colors (c : String) (v : String)
    (h : lookupStatus c = some v) : v ∈ statusColorTokens := by
  have := lookup_mem_values status_class_mapping c v h
  simp [status_class_mapping] at this
  rcases this with rfl | rfl | rfl | rfl | rfl | rfl | rfl <;> decide

theorem statusClassFor_foldl_mem (classes : List String) :
    ∀ acc, acc ∈ statusColorTokens →
      classes.foldl (fun acc c => (lookupStatus c).getD acc) acc ∈ statusColorTokens := by
  induction classes with
  | nil => intro acc h; simpa using h
  | cons c cs ih =>
      intro acc h
      simp only [List.foldl_cons]
      apply ih
      cases hl : lookupStatus c with
      | none => simpa [hl] using h
      | some v => simpa [hl] using lookupStatus_mem_colors c v hl

theorem statusClassFor_mem (classes : List String) :
    statusClassFor classes ∈ statusColorTokens :=
  statusClassFor_foldl_mem classes "status-gray" (by simp [statusColorTokens])

theorem statusClassFor_default (classes : List String)
    (h : ∀ c ∈ classes, lookupStatus c = none) :
    statusClassFor classes = "status-gray" := by
  unfold statusClassFor
  induction classes with
  | nil => rfl
  | cons c cs ih =>
      simp only [List.foldl_cons, h c (by simp)]
      exact ih (fun x hx => h x (by simp [hx]))

/-- **C3.** Status-badge conversion: the chosen colour token is always
one of the seven tokens gray/green/red/yellow/blue/purple/teal; when no
class of the span is in the mapping the colour defaults to gray; the
badge is replaced by a `<strong>` element carrying the colour class and
the badge's stripped text, wrapped in a new `<p>` exactly when the
parent is not a paragraph; and `span.status-macro.aui-lozenge-success`
becomes `<strong class="status-green">…</strong>`. -/
theorem c3_status_badges :
    (∀ classes : List String, statusClassFor classes ∈ statusColorTokens)
    ∧ (∀ classes : List String, (∀ c ∈ classes, lookupStatus c = none) →
        statusClassFor classes = "status-gray")
    ∧ (∀ classes txt,
        processStatusSpan classes txt true =
          .elem "strong" [] [statusClassFor classes] (ofL [.text txt])
        ∧ processStatusSpan classes txt false =
          .elem "p" [] []
            (ofL [.elem "strong" [] [statusClassFor classes] (ofL [.text txt])]))
    ∧ processStatusSpan ["status-macro", "aui-lozenge-success"] "Done" true =
        .elem "strong" [] ["status-green"] (ofL [.text "Done"]) := by
  refine ⟨statusClassFor_mem, statusClassFor_default, ?_, by decide⟩
  intro classes txt
  constructor <;> rfl

/-- Witness for `c3_status_badges`: the default-gray clause applied at a
concrete class list with no mapped class. -/
theorem c3_status_badges_witness :
    statusClassFor ["status-macro", "foo"] = "status-gray" :=
  c3_status_badges.2.1 ["status-macro", "foo"] (by decide)

theorem statusClassFor_foldl_last (classes : List String) :
    ∀ acc, classes.foldl (fun acc c => (lookupStatus c).getD acc) acc =
      ((classes.filterMap lookupStatus).getLast?).getD acc := by
  induction classes with
  | nil => intro acc; rfl
  | cons c cs ih =>
      intro acc
      simp only [List.foldl_cons, List.filterMap_cons]
      cases hl : lookupStatus c with
      | none => simpa [hl] using ih acc
      | some v =>
          simp only [hl, Option.getD_some]
          rw [ih v]
          cases hl2 : cs.filterMap lookupStatus with
          | nil => simp [hl2]
          | cons w ws =>
              have hne : w :: ws ≠ ([] : List String) := by simp
              rw [List.getLast?_cons_cons,
                List.getLast?_eq_getLast _ hne]
              simp

/-- **C9.** When several classes of a status span are in the mapping,
the colour chosen is that of the last matching class in class-list
order (`statusClassFor` equals the last mapped value, gray when none);
in particular the generic `aui-lozenge` token (gray) overrides an
earlier specific token. -/
theorem c9_last_match_wins :
    (∀ classes : List String,
      statusClassFor classes =
        ((classes.filterMap lookupStatus).getLast?).getD "status-gray")
    ∧ statusClassFor ["status-macro", "aui-lozenge-success", "aui-lozenge"] =
        "status-gray" := by
  refine ⟨fun classes => statusClassFor_foldl_last classes "status-gray", by decide⟩

theorem clean_tables_classes_eq (cls : List String) :
    clean_tables_classes cls = removeConfluenceClasses cls ++ ["custom-table"] := by
  unfold clean_tables_classes cleanClassAttr
  split <;> simp_all

theorem removeConfluenceClasses_idem (cls : List String) :
    removeConfluenceClasses (removeConfluenceClasses cls) =
      removeConfluenceClasses cls := by
  unfold removeConfluenceClasses
  rw [List.filter_filter]
  simp

theorem removeConfluenceClasses_append (l₁ l₂ : List String) :
    removeConfluenceClasses (l₁ ++ l₂) =
      removeConfluenceClasses l₁ ++ removeConfluenceClasses l₂ := by
  unfold removeConfluenceClasses
  rw [List.filter_append]

/-- **C1 (counterexample).** The pipeline is not idempotent: a table that
entered with class `confluenceTable` has class `custom-table` after one
run of table cleanup, and `custom-table custom-table` after a second
run — a different token list, so the serialized documents differ by a
non-whitespace token; likewise a second style injection appends a second
fonts link and style block to the head. -/
theorem c1_not_idempotent_cex :
    clean_tables_classes ["confluenceTable"] = ["custom-table"]
    ∧ clean_tables_classes (clean_tables_classes ["confluenceTable"]) =
        ["custom-table", "custom-table"]
    ∧ clean_tables_classes (clean_tables_classes ["confluenceTable"]) ≠
        clean_tables_classes ["confluenceTable"]
    ∧ inject_styles_head (inject_styles_head []) ≠ inject_styles_head [] := by
  refine ⟨by decide, by decide, by decide, ?_⟩
  intro h
  have := congrArg List.length h
  simp [inject_styles_head] at this

/-- **C1 (amended).** Re-running the cleaned passes accumulates content:
a second run of table cleanup appends exactly one more `custom-table`
token to every table’s class list, and a second run of style injection
appends exactly one more fonts link and custom style element to the
head — so the pipeline is not idempotent, the accumulation being
precisely these appends. -/
theorem c1_second_run_accumulates :
    (∀ cls : List String,
      clean_tables_classes (clean_tables_classes cls) =
        clean_tables_classes cls ++ ["custom-table"])
    ∧ (∀ headChildren : List HNode,
      inject_styles_head (inject_styles_head headChildren) =
        inject_styles_head headChildren ++ [fonts_link_tag, custom_style_tag]) := by
  constructor
  · intro cls
    rw [clean_tables_classes_eq, clean_tables_classes_eq,
      removeConfluenceClasses_append, removeConfluenceClasses_idem]
    have hct : removeConfluenceClasses ["custom-table"] = ["custom-table"] := by
      decide
    rw [hct, List.append_assoc]
  · intro headChildren
    simp [inject_styles_head]

/-! ## C4: the class-attribute invariant -/
/-- **C4 (counterexample).** A table that entered with only
vendor-denylisted classes (`confluenceTable`) does not leave the
pipeline without a `class` attribute: `_clean_tables` adds
`custom-table`, so the cleaned table carries `class="custom-table"`,
refuting “an element that entered with only vendor-denylisted classes
has no `class` attribute in the output”. -/
theorem c4_table_keeps_class_cex :
    table_class_pipeline ["confluenceTable"] = some ["custom-table"]
    ∧ table_class_pipeline ["confluenceTable"] ≠ none := by
  constructor <;> decide

theorem cleanClassAttr_ne_nil (cls r : List String)
    (h : cleanClassAttr cls = some r) : r ≠ [] := by
  unfold cleanClassAttr at h
  split at h
  · simp at h
  · simp at h; simp [← h]; assumption

theorem cleanClassAttr_all_denylisted (cls : List String)
    (h : ∀ c ∈ cls, c ∈ confluence_classes) :
    cleanClassAttr cls = none := by
  have hnil : removeConfluenceClasses cls = [] := by
    unfold removeConfluenceClasses
    simp only [List.filter_eq_nil_iff, decide_eq_true_eq]
    intro a ha h2
    exact h2 (h a ha)
  simp [cleanClassAttr, hnil]

/-- **C4 (amended).** Every class-filtering site of the pipeline leaves
the `class` attribute as a non-empty token list or deletes it: the
shared filter never returns `some []`, and table cleanup always
produces a non-empty list. An element that entered with only
vendor-denylisted classes has its `class` attribute deleted by
attribute sanitization — unless it is a table, which always receives
the `custom-table` class and therefore ends with
`class="custom-table"`. -/
theorem c4_class_attribute_invariant :
    (∀ cls r : List String, cleanClassAttr cls = some r → r ≠ [])
    ∧ (∀ cls : List String, clean_tables_classes cls ≠ [])
    ∧ (∀ cls : List String, (∀ c ∈ cls, c ∈ confluence_classes) →
        cleanClassAttr cls = none)
    ∧ (∀ cls : List String, (∀ c ∈ cls, c ∈ confluence_classes) →
        table_class_pipeline cls = some ["custom-table"]) := by
  refine ⟨cleanClassAttr_ne_nil, ?_, cleanClassAttr_all_denylisted, ?_⟩
  · intro cls
    rw [clean_tables_classes_eq]
    simp
  · intro cls h
    unfold table_class_pipeline
    rw [cleanClassAttr_all_denylisted cls h]
    simp [clean_tables_classes_eq, removeConfluenceClasses]

/-- Witness for `c4_class_attribute_invariant`: applied at the concrete
class list `["aui", "panel"]` (all denylisted) and at a concrete
filtering call. -/
theorem c4_class_attribute_invariant_witness :
    cleanClassAttr ["aui", "panel"] = none
    ∧ table_class_pipeline ["aui", "panel"] = some ["custom-table"] :=
  ⟨c4_class_attribute_invariant.2.2.1 ["aui", "panel"] (by decide),
   c4_class_attribute_invariant.2.2.2 ["aui", "panel"] (by decide)⟩

/-- **C6.** The claim "its `src` value contains no query string — for
every image, including those whose src is already absolute or rooted"
fails on the code: the query-stripped `urlparse(src).path` is assigned
to a local variable and only written back when the path is relative, so
a rooted `src` like `/images/a.png?version=2` (and likewise an absolute
`http://…?…` one) keeps its query string, while a relative
`a.png?version=2` does get it stripped during resolution; the attribute
allow-list and the `alt` guarantee do hold on this input.  This
contradicts the code's own comment "Remove qualquer query string do
src". -/
theorem c6_query_string_survives :
    process_image none "input" "/cwd"
        [("src", "/images/a.png?version=2"), ("loading", "lazy")] =
      [("src", "/images/a.png?version=2"), ("alt", "")]
    ∧ ('?' ∈ "/images/a.png?version=2".data)
    ∧ process_image none "input" "/cwd" [("src", "a.png?version=2")] =
      [("src", "/cwd/input/a.png"), ("alt", "")] := by
  refine ⟨by decide, by decide, by decide⟩

/-- **C2 (counterexample).** For the `three-equal` variant the three
cells are assigned the width class `column-33` each, whose percentages
sum to 33 + 33 + 33 = 99, not 100 — refuting "the sum of the
percentages of the assigned width classes is 100" for all five
variants. -/
theorem c2_three_equal_sum_99 :
    convert_column_layout
        (.elem "div" [] ["columnLayout", "three-equal"]
          (ofL [.elem "div" [] ["cell"] .nil, .elem "div" [] ["cell"] .nil,
                .elem "div" [] ["cell"] .nil])) =
      some (.elem "table" [] [] (ofL [.elem "tr" [] [] (ofL
        [.elem "td" [] ["column-33"] .nil, .elem "td" [] ["column-33"] .nil,
         .elem "td" [] ["column-33"] .nil])]))
    ∧ assignedPercentSum
        [.elem "td" [] ["column-33"] .nil, .elem "td" [] ["column-33"] .nil,
         .elem "td" [] ["column-33"] .nil] = 99
    ∧ (99 : Nat) ≠ 100 := by
  refine ⟨by decide, by decide, by decide⟩

/-- **C2 (amended).** For each of the five recognized column-layout
variants, conversion of a layout div with the variant's expected number
of cell divs produces a table with exactly one row, one `<td>` per
original column, each cell carrying a width class from the fixed
percentage→class mapping, and each original column's inner content
moved into the corresponding cell; the percentages of the assigned
width classes sum to 100 for `two-equal`, `two-right-sidebar`,
`two-left-sidebar` and `three-with-sidebars`, but to 99 (33+33+33) for
`three-equal`. -/
theorem c2_column_layouts :
    ∀ lt ∈ layout_types, ∀ d : HNode,
      layoutTypeOf d = some lt →
      (directCellDivs d).length = expected_cols lt →
      ∃ tds : List HNode,
        convert_column_layout d =
          some (.elem "table" [] [] (ofL [.elem "tr" [] [] (ofL tds)]))
        ∧ tds.length = expected_cols lt
        ∧ tds = ((directCellDivs d).zip
            (col_widths lt (directCellDivs d).length)).map
            (fun p => mkTd p.2 (cellInnerContents p.1))
        ∧ (∀ td ∈ tds, ∃ w wc, width_class_mapping.lookup w = some wc ∧
            td.classes = [wc])
        ∧ assignedPercentSum tds = (if lt = "three-equal" then 99 else 100) := by
  intro lt hlt d hty hlen
  refine ⟨((directCellDivs d).zip
      (col_widths lt (directCellDivs d).length)).map
      (fun p => mkTd p.2 (cellInnerContents p.1)), ?_, ?_, rfl, ?_, ?_⟩
  · -- the conversion result
    simp only [convert_column_layout, hty]
    rw [if_pos]
    simp [layout_types] at hlt
    rcases hlt with rfl | rfl | rfl | rfl | rfl <;>
      · rw [hlen]; simp [col_widths, expected_cols]
  · -- one td per expected column
    simp [layout_types] at hlt
    rcases hlt with rfl | rfl | rfl | rfl | rfl <;>
      · simp [col_widths, expected_cols, hlen]
  · -- width classes come from the mapping
    intro td htd
    simp only [List.mem_map] at htd
    obtain ⟨⟨c, w⟩, hmem, rfl⟩ := htd
    have hw : w ∈ col_widths lt (directCellDivs d).length :=
      (List.of_mem_zip hmem).2
    simp [layout_types] at hlt
    rcases hlt with rfl | rfl | rfl | rfl | rfl <;>
      simp [col_widths] at hw <;>
      rcases hw with rfl | rfl | rfl <;>
      first
      | exact ⟨"25%", "column-25", rfl, rfl⟩
      | exact ⟨"33%", "column-33", rfl, rfl⟩
      | exact ⟨"50%", "column-50", rfl, rfl⟩
      | exact ⟨"67%", "column-67", rfl, rfl⟩
  · -- the percentage sums
    simp [layout_types] at hlt
    rcases hlt with rfl | rfl | rfl | rfl | rfl
    · obtain ⟨c1, c2, hc⟩ := List.length_eq_two.mp hlen
      rw [hc]; rfl
    · obtain ⟨c1, c2, hc⟩ := List.length_eq_two.mp hlen
      rw [hc]; rfl
    · obtain ⟨c1, c2, hc⟩ := List.length_eq_two.mp hlen
      rw [hc]; rfl
    · obtain ⟨c1, c2, c3, hc⟩ := List.length_eq_three.mp hlen
      rw [hc]; rfl
    · obtain ⟨c1, c2, c3, hc⟩ := List.length_eq_three.mp hlen
      rw [hc]; rfl

/-- Witness for `c2_column_layouts`: the `two-equal` variant applied to
a concrete layout div with two cells. -/
theorem c2_column_layouts_witness :
    ∃ tds : List HNode,
      convert_column_layout
          (.elem "div" [] ["columnLayout", "two-equal"]
            (ofL [.elem "div" [] ["cell"] (ofL [.text "a"]),
                  .elem "div" [] ["cell"] (ofL [.text "b"])])) =
        some (.elem "table" [] [] (ofL [.elem "tr" [] [] (ofL tds)]))
      ∧ tds.length = expected_cols "two-equal"
      ∧ tds = ((directCellDivs
            (.elem "div" [] ["columnLayout", "two-equal"]
              (ofL [.elem "div" [] ["cell"] (ofL [.text "a"]),
                    .elem "div" [] ["cell"] (ofL [.text "b"])]))).zip
          (col_widths "two-equal" (directCellDivs
            (.elem "div" [] ["columnLayout", "two-equal"]
              (ofL [.elem "div" [] ["cell"] (ofL [.text "a"]),
                    .elem "div" [] ["cell"] (ofL [.text "b"])]))).length)).map
          (fun p => mkTd p.2 (cellInnerContents p.1))
      ∧ (∀ td ∈ tds, ∃ w wc, width_class_mapping.lookup w = some wc ∧
          td.classes = [wc])
      ∧ assignedPercentSum tds =
          (if "two-equal" = "three-equal" then 99 else 100) :=
  c2_column_layouts "two-equal" (by decide)
    (.elem "div" [] ["columnLayout", "two-equal"]
      (ofL [.elem "div" [] ["cell"] (ofL [.text "a"]),
            .elem "div" [] ["cell"] (ofL [.text "b"])]))
    (by decide) (by decide)

/-- **C5.** Breadcrumb extraction returns the trimmed label strings of
the anchors inside the breadcrumb container in document order, skipping
anchors whose trimmed text is empty; an absent container yields `[]`
(no error — the function is total); and on the example document it
yields `["Space", "Parent"]`. -/
theorem c5_breadcrumb_extraction :
    (∀ doc : HForest, doc.findTagId "div" "breadcrumb-section" = none →
      extract_breadcrumbs_tree doc = [])
    ∧ (∀ (doc : HForest) (d : HNode),
        doc.findTagId "div" "breadcrumb-section" = some d →
        extract_breadcrumbs_tree doc =
          ((d.children.findAllTag "a").map
            (fun a => pyStrip a.textContent)).filter (fun s => decide (s ≠ "")))
    ∧ extract_breadcrumbs_tree breadcrumb_example_doc = ["Space", "Parent"]
    ∧ extract_breadcrumbs_tree (ofL [.elem "p" [] [] (ofL [.text "hi"])]) = [] := by
  refine ⟨?_, ?_, by decide, by decide⟩
  · intro doc h; unfold extract_breadcrumbs_tree; rw [h]
  · intro doc d h; unfold extract_breadcrumbs_tree; rw [h]

/-- Witness for `c5_breadcrumb_extraction`: the container-absent clause
at a concrete document, and the container-present clause at the example
document. -/
theorem c5_breadcrumb_extraction_witness :
    extract_breadcrumbs_tree (ofL [.elem "body" [] [] .nil]) = [] :=
  c5_breadcrumb_extraction.1 (ofL [.elem "body" [] [] .nil]) (by decide)

theorem head?_dropWhile (p : Char → Bool) :
    ∀ (l : List Char) (c : Char), (l.dropWhile p).head? = some c → p c = false := by
  intro l
  induction l with
  | nil => intro c h; simp at h
  | cons a l ih =>
      intro c h
      rw [List.dropWhile_cons] at h
      split at h
      · exact ih c h
      · next hpa =>
          simp only [List.head?_cons, Option.some.injEq] at h
          subst h
          simpa using hpa

theorem dropWhile_eq_self_of_head (p : Char → Bool) (l : List Char)
    (h : ∀ c, l.head? = some c → p c = false) : l.dropWhile p = l := by
  cases l with
  | nil => rfl
  | cons a l =>
      rw [List.dropWhile_cons, if_neg]
      simp [h a rfl]

theorem dropWhile_idem (p : Char → Bool) (l : List Char) :
    (l.dropWhile p).dropWhile p = l.dropWhile p :=
  dropWhile_eq_self_of_head p _ (head?_dropWhile p l)

theorem dropTrail_prefix (ch : Char) (z : List Char) :
    dropTrail ch z <+: z := by
  unfold dropTrail
  have := List.dropWhile_suffix (l := z.reverse) (p := fun c => decide (c = ch))
  rw [← List.reverse_prefix] at this
  simpa using this

theorem dropTrail_idem (ch : Char) (w : List Char) :
    dropTrail ch (dropTrail ch w) = dropTrail ch w := by
  unfold dropTrail
  rw [List.reverse_reverse, dropWhile_idem]

theorem dropLead_dropTrail (ch : Char) (l : List Char) :
    dropLead ch (dropTrail ch (dropLead ch l)) = dropTrail ch (dropLead ch l) := by
  unfold dropLead
  apply dropWhile_eq_self_of_head
  intro c hc
  obtain ⟨t, ht⟩ :=
    dropTrail_prefix ch (l.dropWhile (fun c => decide (c = ch)))
  cases hz : dropTrail ch (l.dropWhile (fun c => decide (c = ch))) with
  | nil => rw [hz] at hc; simp at hc
  | cons a z' =>
      rw [hz] at hc ht
      simp only [List.head?_cons, Option.some.injEq] at hc
      subst hc
      have hhead :
          (l.dropWhile (fun c => decide (c = ch))).head? = some a := by
        rw [← ht]; simp
      exact head?_dropWhile _ l a hhead

theorem stripChar_idem (ch : Char) (l : List Char) :
    stripChar ch (stripChar ch l) = stripChar ch l := by
  unfold stripChar
  rw [dropLead_dropTrail, dropTrail_idem]

theorem mem_collapseWsAux :
    ∀ (l : List Char) (b : Bool) (c : Char), c ∈ collapseWsAux b l →
      (c ∈ l ∧ c.isWhitespace = false) ∨ c = '-' := by
  intro l
  induction l with
  | nil => intro b c h; simp [collapseWsAux] at h
  | cons a l ih =>
      intro b c h
      simp only [collapseWsAux] at h
      split at h
      · rw [List.mem_append] at h
        rcases h with h | h
        · right
          split at h <;> simp_all
        · rcases ih true c h with ⟨h1, h2⟩ | h1
          · exact Or.inl ⟨by simp [h1], h2⟩
          · exact Or.inr h1
      · next hws =>
          rcases List.mem_cons.mp h with rfl | h
          · exact Or.inl ⟨by simp, by simpa using hws⟩
          · rcases ih false c h with ⟨h1, h2⟩ | h1
            · exact Or.inl ⟨by simp [h1], h2⟩
            · exact Or.inr h1

theorem collapseWsAux_eq_self :
    ∀ (l : List Char), (∀ c ∈ l, c.isWhitespace = false) →
      collapseWsAux false l = l := by
  intro l
  induction l with
  | nil => intro _; rfl
  | cons a l ih =>
      intro h
      have ha : a.isWhitespace = false := h a (by simp)
      simp only [collapseWsAux, ha]
      simp only [Bool.false_eq_true, if_false]
      rw [ih (fun c hc => h c (by simp [hc]))]

theorem mem_stripChar (ch : Char) (l : List Char) (c : Char)
    (h : c ∈ stripChar ch l) : c ∈ l := by
  unfold stripChar dropTrail dropLead at h
  rw [List.mem_reverse] at h
  have h1 := (List.dropWhile_sublist
    (l := ((l.dropWhile (fun c => decide (c = ch))).reverse))
    (p := fun c => decide (c = ch))).subset h
  rw [List.mem_reverse] at h1
  exact (List.dropWhile_sublist (l := l)
    (p := fun c => decide (c = ch))).subset h1

theorem sanitize_shape (s : String) :
    sanitize_filename s = "untitled" ∨
    ∃ (w l : List Char), l = stripChar '-' (collapseWsAux false
        (List.filter (fun c => !invalidFilenameChar c) w))
      ∧ l ≠ [] ∧ sanitize_filename s = String.mk l := by
  unfold sanitize_filename
  split
  · exact Or.inl rfl
  · split
    · exact Or.inl rfl
    · next hne => exact Or.inr ⟨s.data, _, rfl, hne, rfl⟩

theorem string_mk_ne_empty (l : List Char) (h : l ≠ []) :
    String.mk l ≠ "" := by
  intro hc
  exact h (congrArg String.data hc)

theorem sanitize_filename_ne_empty (s : String) :
    sanitize_filename s ≠ "" := by
  rcases sanitize_shape s with h | ⟨w, l, _, hne, h⟩
  · rw [h]; decide
  · rw [h]; exact string_mk_ne_empty l hne

theorem sanitize_of_sanitized (w l : List Char)
    (hform : l = stripChar '-' (collapseWsAux false
      (List.filter (fun c => !invalidFilenameChar c) w)))
    (hne : l ≠ []) :
    sanitize_filename (String.mk l) = String.mk l := by
  have hmem : ∀ c ∈ l,
      (c ∈ List.filter (fun c => !invalidFilenameChar c) w
        ∧ c.isWhitespace = false) ∨ c = '-' := by
    intro c hc
    rw [hform] at hc
    exact mem_collapseWsAux _ false c (mem_stripChar _ _ c hc)
  have hfilter : List.filter (fun c => !invalidFilenameChar c) l = l := by
    rw [List.filter_eq_self]
    intro c hc
    rcases hmem c hc with ⟨h1, _⟩ | rfl
    · exact (List.mem_filter.mp h1).2
    · decide
  have hws : ∀ c ∈ l, c.isWhitespace = false := by
    intro c hc
    rcases hmem c hc with ⟨_, h2⟩ | rfl
    · exact h2
    · decide
  have hdata : (String.mk l).data = l := rfl
  unfold sanitize_filename
  rw [if_neg (string_mk_ne_empty l hne), hdata, hfilter,
    collapseWsAux_eq_self l hws, hform, stripChar_idem, ← hform,
    if_neg hne]

theorem sanitize_filename_idem (s : String) :
    sanitize_filename (sanitize_filename s) = sanitize_filename s := by
  rcases sanitize_shape s with h | ⟨w, l, hform, hne, h⟩
  · rw [h]; decide
  · rw [h]; exact sanitize_of_sanitized w l hform hne

theorem mem_extract_breadcrumbs_fp (doc : HForest) (b : String)
    (h : b ∈ extract_breadcrumbs_fp doc) :
    ∃ s, b = sanitize_filename (pyStrip s) := by
  unfold extract_breadcrumbs_fp at h
  split at h
  · simp at h
  · next d _ =>
      revert h
      induction HForest.findAllTag "span" d.children with
      | nil => intro h; simp at h
      | cons sp sps ih =>
          intro h
          simp only [List.foldr_cons] at h
          split at h
          · split at h
            · split at h
              · rcases List.mem_cons.mp h with rfl | h
                · exact ⟨_, rfl⟩
                · exact ih h
              · exact ih h
            · exact ih h
          · exact ih h

/-- **C10 (counterexample).** A crumb whose label sanitizes to the
empty string (here `???`: every character is removed) is not skipped:
`_sanitize_filename` returns `"untitled"` for it (never the empty
string), so the extractor appends `"untitled"` — where the claim
requires the crumb to be dropped and the result to be `[]`. -/
theorem c10_untitled_not_skipped_cex :
    spec_sanitize (pyStrip "???") = ""
    ∧ extract_breadcrumbs_fp c10_cex_doc = ["untitled"]
    ∧ (["untitled"] : List String) ≠ [] := by
  refine ⟨by decide, by decide, by decide⟩

/-- **C10 (amended).** Every breadcrumb string returned by the
file-organizer's extractor is a non-empty token fixed by the sanitizer
(invalid filename characters absent, whitespace runs already collapsed
to single hyphens, no leading/trailing hyphen); anchors whose `.string`
does not resolve to a single string are skipped; but crumbs whose label
sanitizes to the empty string are returned as `"untitled"` rather than
skipped — on non-empty labels whose sanitization is non-empty the
sanitizer agrees exactly with the claimed three-step sanitization. -/
theorem c10_sanitized_breadcrumbs :
    (∀ (doc : HForest) (b : String), b ∈ extract_breadcrumbs_fp doc →
      b ≠ "" ∧ sanitize_filename b = b)
    ∧ (∀ s : String, spec_sanitize s = "" → sanitize_filename s = "untitled")
    ∧ (∀ s : String, s ≠ "" → spec_sanitize s ≠ "" →
        sanitize_filename s = spec_sanitize s) := by
  refine ⟨?_, ?_, ?_⟩
  · intro doc b hb
    obtain ⟨s, rfl⟩ := mem_extract_breadcrumbs_fp doc b hb
    exact ⟨sanitize_filename_ne_empty _, sanitize_filename_idem _⟩
  · intro s h
    have hnil : stripChar '-' (collapseWsAux false
        (List.filter (fun c => !invalidFilenameChar c) s.data)) = [] := by
      have := congrArg String.data h
      simpa [spec_sanitize] using this
    unfold sanitize_filename
    rw [hnil]
    simp
  · intro s hs hne
    have hnil : stripChar '-' (collapseWsAux false
        (List.filter (fun c => !invalidFilenameChar c) s.data)) ≠ [] := by
      intro hc
      exact hne (by simp [spec_sanitize, hc])
    unfold sanitize_filename spec_sanitize
    rw [if_neg hs, if_neg hnil]

/-- Witness for `c10_sanitized_breadcrumbs`: the membership clause at
the concrete example document (crumb `"Space"`), and the
agreement clause at the concrete label `"My Page"`. -/
theorem c10_sanitized_breadcrumbs_witness :
    ("Space" ≠ "" ∧ sanitize_filename "Space" = "Space")
    ∧ sanitize_filename "My Page" = spec_sanitize "My Page" :=
  ⟨c10_sanitized_breadcrumbs.1 breadcrumb_example_doc "Space" (by decide),
   c10_sanitized_breadcrumbs.2.2 "My Page" (by decide) (by decide)⟩

theorem hasTag_append (t : String) :
    ∀ (f g : HForest), (f.append g).hasTag t = (f.hasTag t || g.hasTag t)
  | .nil, g => by simp [HForest.append, HForest.hasTag]
  | .cons n f, g => by
      simp [HForest.append, HForest.hasTag, hasTag_append t f g, Bool.or_assoc]

mutual
theorem mapFirstTag_none_node (t : String) (f : HNode → HNode) :
    ∀ n : HNode, n.hasTag t = false → n.mapFirstTag t f = none
  | .text _, _ => rfl
  | .comment _, _ => rfl
  | .elem tg a c ch, h => by
      simp only [HNode.hasTag, Bool.or_eq_false_iff] at h
      simp only [HNode.mapFirstTag]
      rw [if_neg (by simpa using h.1), mapFirstTag_none_forest t f ch h.2]
      rfl

theorem mapFirstTag_none_forest (t : String) (f : HNode → HNode) :
    ∀ fr : HForest, fr.hasTag t = false → fr.mapFirstTag t f = none
  | .nil, _ => rfl
  | .cons n fr, h => by
      simp only [HForest.hasTag, Bool.or_eq_false_iff] at h
      simp only [HForest.mapFirstTag]
      rw [mapFirstTag_none_node t f n h.1, mapFirstTag_none_forest t f fr h.2]
      rfl
end

mutual
theorem findFirstTag_none_node (t : String) :
    ∀ n : HNode, n.hasTag t = false → n.findFirstTag t = none
  | .text _, _ => rfl
  | .comment _, _ => rfl
  | .elem tg a c ch, h => by
      simp only [HNode.hasTag, Bool.or_eq_false_iff] at h
      simp only [HNode.findFirstTag]
      rw [if_neg (by simpa using h.1)]
      exact findFirstTag_none_forest t ch h.2

theorem findFirstTag_none_forest (t : String) :
    ∀ fr : HForest, fr.hasTag t = false → fr.findFirstTag t = none
  | .nil, _ => rfl
  | .cons n fr, h => by
      simp only [HForest.hasTag, Bool.or_eq_false_iff] at h
      simp only [HForest.findFirstTag]
      rw [findFirstTag_none_node t n h.1]
      exact findFirstTag_none_forest t fr h.2
end

mutual
theorem mapFirstTag_hasTag_node (t0 t : String) (f : HNode → HNode)
    (hf : ∀ n, n.hasTag t0 = false → (f n).hasTag t0 = false) :
    ∀ (n n' : HNode), n.hasTag t0 = false →
      n.mapFirstTag t f = some n' → n'.hasTag t0 = false
  | .text _, n', _, hm => by simp [HNode.mapFirstTag] at hm
  | .comment _, n', _, hm => by simp [HNode.mapFirstTag] at hm
  | .elem tg a c ch, n', h, hm => by
      simp only [HNode.mapFirstTag] at hm
      split at hm
      · simp only [Option.some.injEq] at hm
        subst hm
        exact hf _ h
      · cases hch : ch.mapFirstTag t f with
        | none => rw [hch] at hm; simp at hm
        | some ch' =>
            rw [hch] at hm
            simp only [Option.map_some', Option.some.injEq] at hm
            subst hm
            simp only [HNode.hasTag, Bool.or_eq_false_iff] at h
            simp only [HNode.hasTag, Bool.or_eq_false_iff]
            exact ⟨h.1, mapFirstTag_hasTag_forest t0 t f hf ch ch' h.2 hch⟩

theorem mapFirstTag_hasTag_forest (t0 t : String) (f : HNode → HNode)
    (hf : ∀ n, n.hasTag t0 = false → (f n).hasTag t0 = false) :
    ∀ (fr fr' : HForest), fr.hasTag t0 = false →
      fr.mapFirstTag t f = some fr' → fr'.hasTag t0 = false
  | .nil, fr', _, hm => by simp [HForest.mapFirstTag] at hm
  | .cons n fr, fr', h, hm => by
      simp only [HForest.hasTag, Bool.or_eq_false_iff] at h
      simp only [HForest.mapFirstTag] at hm
      split at hm
      · next n' hn =>
          simp only [Option.some.injEq] at hm
          subst hm
          simp only [HForest.hasTag, Bool.or_eq_false_iff]
          exact ⟨mapFirstTag_hasTag_node t0 t f hf n n' h.1 hn, h.2⟩
      · cases hfr : fr.mapFirstTag t f with
        | none => rw [hfr] at hm; simp at hm
        | some fr2 =>
            rw [hfr] at hm
            simp only [Option.map_some', Option.some.injEq] at hm
            subst hm
            simp only [HForest.hasTag, Bool.or_eq_false_iff]
            exact ⟨h.1, mapFirstTag_hasTag_forest t0 t f hf fr fr2 h.2 hfr⟩
end

theorem hasTag_appendChild (t : String) (x n : HNode)
    (hx : x.hasTag t = false) (hn : n.hasTag t = false) :
    (appendChild x n).hasTag t = false := by
  cases n with
  | text s => simpa [appendChild] using hn
  | comment s => simpa [appendChild] using hn
  | elem tg a c ch =>
      simp only [HNode.hasTag, Bool.or_eq_false_iff] at hn
      simp only [appendChild, HNode.hasTag, Bool.or_eq_false_iff]
      refine ⟨hn.1, ?_⟩
      rw [hasTag_append]
      simp [HForest.hasTag, ofL, hn.2, hx]

theorem hasTag_prependChild (t : String) (x n : HNode)
    (hx : x.hasTag t = false) (hn : n.hasTag t = false) :
    (prependChild x n).hasTag t = false := by
  cases n with
  | text s => simpa [prependChild] using hn
  | comment s => simpa [prependChild] using hn
  | elem tg a c ch =>
      simp only [HNode.hasTag, Bool.or_eq_false_iff] at hn
      simp only [prependChild, HNode.hasTag, HForest.hasTag,
        Bool.or_eq_false_iff]
      exact ⟨hn.1, hx, hn.2⟩

mutual
theorem stripBodyStyles_hasTag_node (t : String) :
    ∀ (n : HNode) (b : Bool), n.hasTag t = false →
      (n.stripBodyStyles b).hasTag t = false
  | .text s, b, _ => by
      simp [HNode.stripBodyStyles, HForest.hasTag, HNode.hasTag]
  | .comment s, b, _ => by
      simp [HNode.stripBodyStyles, HForest.hasTag, HNode.hasTag]
  | .elem tg a c ch, b, h => by
      simp only [HNode.hasTag, Bool.or_eq_false_iff] at h
      simp only [HNode.stripBodyStyles]
      split
      · simp [HForest.hasTag]
      · simp only [HForest.hasTag, HNode.hasTag, Bool.or_eq_false_iff]
        exact ⟨⟨h.1, stripBodyStyles_hasTag_forest t ch (tg = "head") h.2⟩, trivial⟩

theorem stripBodyStyles_hasTag_forest (t : String) :
    ∀ (fr : HForest) (b : Bool), fr.hasTag t = false →
      (fr.stripBodyStyles b).hasTag t = false
  | .nil, b, _ => rfl
  | .cons n fr, b, h => by
      simp only [HForest.hasTag, Bool.or_eq_false_iff] at h
      simp only [HForest.stripBodyStyles]
      rw [hasTag_append]
      simp [stripBodyStyles_hasTag_node t n b h.1,
        stripBodyStyles_hasTag_forest t fr b h.2]
end

theorem add_missing_title_no_html (title : String) (doc : HForest)
    (h : doc.hasTag "html" = false) :
    (∃ e, add_missing_title title doc = .error e) ∨
    (∃ d', add_missing_title title doc = .ok d' ∧ d'.hasTag "html" = false) := by
  unfold add_missing_title
  split
  · exact Or.inr ⟨doc, rfl, h⟩
  · cases hm : doc.mapFirstTag "head" (appendChild (titleTag title)) with
    | some d' =>
        refine Or.inr ⟨d', rfl, ?_⟩
        refine mapFirstTag_hasTag_forest "html" "head" _ ?_ doc d' h hm
        intro n hn
        exact hasTag_appendChild "html" _ n
          (by simp [titleTag, HNode.hasTag, ofL, HForest.hasTag]) hn
    | none =>
        rw [mapFirstTag_none_forest "html" _ doc h]
        exact Or.inl ⟨_, rfl⟩

theorem ensure_meta_charset_no_html (doc : HForest)
    (h : doc.hasTag "html" = false) :
    (∃ e, ensure_meta_charset doc = .error e) ∨
    (∃ d', ensure_meta_charset doc = .ok d' ∧ d'.hasTag "html" = false) := by
  unfold ensure_meta_charset
  split
  · split
    · exact Or.inr ⟨doc, rfl, h⟩
    · cases hm : doc.mapFirstTag "head" (prependChild metaCharsetTag) with
      | some d' =>
          refine Or.inr ⟨d', rfl, ?_⟩
          refine mapFirstTag_hasTag_forest "html" "head" _ ?_ doc d' h hm
          intro n hn
          exact hasTag_prependChild "html" _ n
            (by simp [metaCharsetTag, HNode.hasTag, HForest.hasTag]) hn
      | none => exact Or.inr ⟨doc, rfl, h⟩
  · rw [mapFirstTag_none_forest "html" _ doc h]
    exact Or.inl ⟨_, rfl⟩

theorem inject_custom_styles_no_html (doc : HForest)
    (h : doc.hasTag "html" = false) :
    (inject_custom_styles doc).hasTag "html" = false := by
  unfold inject_custom_styles
  have hstrip := stripBodyStyles_hasTag_forest "html" doc false h
  split
  · cases hm : (doc.stripBodyStyles false).mapFirstTag "head"
        (fun hd => appendChild custom_style_tag
          (appendChild fonts_link_tag hd)) with
    | some d' =>
        refine mapFirstTag_hasTag_forest "html" "head" _ ?_ _ d' hstrip hm
        intro n hn
        refine hasTag_appendChild "html" _ _ ?_
          (hasTag_appendChild "html" _ n ?_ hn)
        · simp [custom_style_tag, HNode.hasTag, ofL, HForest.hasTag]
        · simp [fonts_link_tag, HNode.hasTag, HForest.hasTag]
    | none => exact hstrip
  · rw [mapFirstTag_none_forest "html" _ _ hstrip]
    exact hstrip

/-- **C8.** When the parsed document has no `html` element (with the
lxml parser this is the empty or element-free parse, e.g. of the empty
string; the earlier passes only rewrite non-`html` elements), the tail
of `clean` raises instead of returning: `_add_missing_title` and
`_ensure_meta_charset` dereference `soup.html` when no head exists, and
the final `self.soup.html.prettify(...)` dereferences it
unconditionally.  Conversely every successful return of the tail comes
from a document with an `html` element. -/
theorem c8_no_html_raises :
    (∀ (title : String) (doc : HForest), doc.hasTag "html" = false →
      ∃ e, clean_finalize title doc = .error e)
    ∧ (∀ (title : String) (doc : HForest) (s : String),
        clean_finalize title doc = .ok s → doc.hasTag "html" = true) := by
  have part1 : ∀ (title : String) (doc : HForest), doc.hasTag "html" = false →
      ∃ e, clean_finalize title doc = .error e := by
    intro title doc h
    rcases add_missing_title_no_html title doc h with ⟨e, he⟩ | ⟨d1, hd1, h1⟩
    · exact ⟨e, by simp only [clean_finalize, he]⟩
    · rcases ensure_meta_charset_no_html d1 h1 with ⟨e, he⟩ | ⟨d2, hd2, h2⟩
      · exact ⟨e, by simp only [clean_finalize, hd1, he]⟩
      · refine ⟨"AttributeError: NoneType has no attribute prettify", ?_⟩
        simp only [clean_finalize, hd1, hd2, serialize_html]
        rw [findFirstTag_none_forest "html" _
          (inject_custom_styles_no_html d2 h2)]
  refine ⟨part1, ?_⟩
  intro title doc s hok
  by_contra hcon
  rw [Bool.not_eq_true] at hcon
  obtain ⟨e, he⟩ := part1 title doc hcon
  rw [he] at hok
  cases hok

/-- Witness for `c8_no_html_raises`: the empty parse (no `html`
element) makes the tail of `clean` return an error. -/
theorem c8_no_html_raises_witness :
    ∃ e, clean_finalize "Untitled Document" HForest.nil = Except.error e :=
  c8_no_html_raises.1 "Untitled Document" HForest.nil (by decide)

/-- **C7 (counterexample).** One document with breadcrumb path `["A"]`
and title `T`: the export contains an extra path-only row `A` for the
folder node, so parsing the CSV yields the pair set
`{([], "A"), (["A"], "T")}` instead of the original `{(["A"], "T")}` —
the round trip invents a pair (and with `show_filenames` enabled the
title field would additionally carry the file path). -/
theorem c7_roundtrip_cex :
    generate_table_format false (build_tree [(["A"], "T", "p")]) =
      [["A"], ["A", "T"]]
    ∧ pairs_of_rows (parse_csv ';'
        (export_table ';' false (build_tree [(["A"], "T", "p")]))) ≠
      doc_pairs [(["A"], "T", "p")]
    ∧ ([], "A") ∈ pairs_of_rows (parse_csv ';'
        (export_table ';' false (build_tree [(["A"], "T", "p")])))
    ∧ ([], "A") ∉ doc_pairs [(["A"], "T", "p")] := by
  refine ⟨by decide, by decide, by decide, by decide⟩

theorem build_flat (docs : List (String × String)) :
    build_tree (docs.map (fun d => ([], d.1, d.2))) =
      .mk "root" none (leaves_fold docs .nil) := by
  suffices h : ∀ (docs : List (String × String)) (ch : TChildren),
      List.foldl (fun t d => add_to_tree t d.1 d.2.1 d.2.2)
        (.mk "root" none ch) (docs.map (fun d => ([], d.1, d.2))) =
      .mk "root" none (leaves_fold docs ch) from h docs .nil
  intro docs
  induction docs with
  | nil => intro ch; rfl
  | cons d rest ih =>
      intro ch
      simp only [List.map_cons, List.foldl_cons]
      exact ih _

theorem mem_assocSet (k : String) (v : TreeNode) :
    ∀ (ch : TChildren) (e : String × TreeNode),
      e ∈ (assocSet k v ch).toListC → e = (k, v) ∨ e ∈ ch.toListC
  | .nil, e, h => by
      simp [assocSet, TChildren.toListC] at h
      exact Or.inl (by simp [h])
  | .cons n c rest, e, h => by
      rw [assocSet] at h
      split at h
      · simp only [TChildren.toListC, List.mem_cons] at h ⊢
        rcases h with h | h
        · exact Or.inl h
        · exact Or.inr (Or.inr h)
      · simp only [TChildren.toListC, List.mem_cons] at h ⊢
        rcases h with h | h
        · exact Or.inr (Or.inl h)
        · rcases mem_assocSet k v rest e h with h | h
          · exact Or.inl h
          · exact Or.inr (Or.inr h)

theorem leaves_fold_leaf_entries :
    ∀ (docs : List (String × String)) (ch : TChildren),
      (∀ e ∈ ch.toListC, IsLeafEntry e) →
      ∀ e ∈ (leaves_fold docs ch).toListC, IsLeafEntry e := by
  intro docs
  induction docs with
  | nil => intro ch h; exact h
  | cons d rest ih =>
      intro ch h
      refine ih _ ?_
      intro e he
      rcases mem_assocSet d.1 _ ch e he with rfl | he
      · exact ⟨d.2, rfl⟩
      · exact h e he

theorem genTableChildren_leaves :
    ∀ ch : TChildren, (∀ e ∈ ch.toListC, IsLeafEntry e) →
      genTableChildren false ch [] =
        ch.toListC.map (fun e => (e.1, false, [[e.1]]))
  | .nil, _ => rfl
  | .cons n c rest, h => by
      obtain ⟨p, hp⟩ := h (n, c) (by simp [TChildren.toListC])
      simp only at hp
      subst hp
      simp only [genTableChildren, TChildren.toListC, List.map_cons]
      refine congrArg₂ _ rfl ?_
      exact genTableChildren_leaves rest
        (fun e he => h e (by simp [TChildren.toListC, he]))

theorem insertSorted_perm (x : String × Bool × List (List String)) :
    ∀ l, List.Perm (insertSorted x l) (x :: l)
  | [] => List.Perm.refl _
  | y :: ys => by
      rw [insertSorted]
      split
      · exact List.Perm.refl _
      · exact (List.Perm.cons y (insertSorted_perm x ys)).trans
          (List.Perm.swap x y ys)

theorem sortBlocks_perm : ∀ l, List.Perm (sortBlocks l) l
  | [] => List.Perm.refl _
  | x :: xs => by
      show List.Perm (insertSorted x (sortBlocks xs)) (x :: xs)
      exact (insertSorted_perm x _).trans (List.Perm.cons x (sortBlocks_perm xs))

theorem joinBlocks_perm :
    ∀ {l l' : List (String × Bool × List (List String))}, List.Perm l l' →
      List.Perm (joinBlocks l) (joinBlocks l') := by
  intro l l' h
  induction h with
  | nil => exact List.Perm.refl _
  | cons x _ ih => exact List.Perm.append_left x.2.2 ih
  | swap x y t =>
      show List.Perm (y.2.2 ++ (x.2.2 ++ joinBlocks t))
        (x.2.2 ++ (y.2.2 ++ joinBlocks t))
      rw [← List.append_assoc, ← List.append_assoc]
      exact List.Perm.append_right _ (List.perm_append_comm)
  | trans _ _ ih1 ih2 => exact ih1.trans ih2

theorem joinBlocks_of_rows (names : List String) :
    joinBlocks (names.map (fun n => (n, false, [[n]]))) =
      names.map (fun n => [n]) := by
  induction names with
  | nil => rfl
  | cons n rest ih =>
      simp only [List.map_cons]
      show [n] :: joinBlocks (rest.map (fun n => (n, false, [[n]]))) =
        [n] :: rest.map (fun n => [n])
      rw [ih]

theorem rows_flat_perm (docs : List (String × String)) :
    List.Perm
      (generate_table_format false (.mk "root" none (leaves_fold docs .nil)))
      ((keysC (leaves_fold docs .nil)).map (fun n => [n])) := by
  have hinv := leaves_fold_leaf_entries docs .nil (by intro e he; simp [TChildren.toListC] at he)
  show List.Perm
    (joinBlocks (sortBlocks (genTableChildren false (leaves_fold docs .nil) [])))
    _
  rw [genTableChildren_leaves _ hinv]
  have h1 : List.Perm
      (joinBlocks (sortBlocks ((leaves_fold docs .nil).toListC.map
        (fun e => (e.1, false, [[e.1]])))))
      (joinBlocks ((leaves_fold docs .nil).toListC.map
        (fun e => (e.1, false, [[e.1]])))) :=
    joinBlocks_perm (sortBlocks_perm _)
  refine h1.trans ?_
  have h2 : (leaves_fold docs .nil).toListC.map
      (fun e => (e.1, false, [[e.1]])) =
      (keysC (leaves_fold docs .nil)).map (fun n => (n, false, [[n]])) := by
    unfold keysC
    rw [List.map_map]
    rfl
  rw [h2, joinBlocks_of_rows]

theorem splitChar_ne_nil (c : Char) : ∀ l : List Char, splitChar c l ≠ []
  | [] => by simp [splitChar]
  | x :: xs => by
      rw [splitChar]
      cases h : splitChar c xs with
      | nil => simp
      | cons r rs =>
          show (if x = c then [] :: r :: rs else (x :: r) :: rs) ≠ []
          split <;> simp

theorem splitChar_no_sep (c : Char) :
    ∀ l : List Char, c ∉ l → splitChar c l = [l]
  | [], _ => rfl
  | x :: xs, h => by
      rw [splitChar, splitChar_no_sep c xs (fun hx => h (by simp [hx]))]
      show (if x = c then [[], xs] else [x :: xs]) = [x :: xs]
      rw [if_neg (fun hx => h (by simp [hx]))]

theorem splitChar_append (c : Char) :
    ∀ (l t : List Char), c ∉ l →
      splitChar c (l ++ c :: t) = l :: splitChar c t
  | [], t, _ => by
      rw [List.nil_append, splitChar]
      cases h : splitChar c t with
      | nil => exact absurd h (splitChar_ne_nil c t)
      | cons r rs =>
          show (if c = c then [] :: r :: rs else (c :: r) :: rs) = [] :: r :: rs
          rw [if_pos rfl]
  | x :: xs, t, h => by
      rw [List.cons_append, splitChar,
        splitChar_append c xs t (fun hx => h (by simp [hx]))]
      show (if x = c then [] :: xs :: splitChar c t
        else (x :: xs) :: splitChar c t) = (x :: xs) :: splitChar c t
      rw [if_neg (fun hx => h (by simp [hx]))]

theorem splitChar_intercalate (c : Char) :
    ∀ ls : List (List Char), ls ≠ [] → (∀ l ∈ ls, c ∉ l) →
      splitChar c (intercalateChar c ls) = ls
  | [], h, _ => absurd rfl h
  | [l], _, hmem => by
      rw [intercalateChar, splitChar_no_sep c l (hmem l (by simp))]
  | l :: l2 :: rest, _, hmem => by
      rw [show intercalateChar c (l :: l2 :: rest) =
          l ++ c :: intercalateChar c (l2 :: rest) from rfl]
      rw [splitChar_append c l _ (hmem l (by simp)),
        splitChar_intercalate c (l2 :: rest) (by simp)
          (fun x hx => hmem x (by simp [hx]))]

theorem mem_intercalateChar (c : Char) :
    ∀ (ls : List (List Char)) (x : Char), x ∈ intercalateChar c ls →
      x = c ∨ ∃ l ∈ ls, x ∈ l
  | [], x, h => by simp [intercalateChar] at h
  | [l], x, h => by
      rw [intercalateChar] at h
      exact Or.inr ⟨l, by simp, h⟩
  | l :: l2 :: rest, x, h => by
      rw [show intercalateChar c (l :: l2 :: rest) =
          l ++ c :: intercalateChar c (l2 :: rest) from rfl] at h
      rw [List.mem_append, List.mem_cons] at h
      rcases h with h | h | h
      · exact Or.inr ⟨l, by simp, h⟩
      · exact Or.inl h
      · rcases mem_intercalateChar c (l2 :: rest) x h with h | ⟨l', hl', hx⟩
        · exact Or.inl h
        · exact Or.inr ⟨l', by simp [List.mem_cons] at hl' ⊢; tauto, hx⟩

theorem parse_csv_export_rows (sep : Char) (rows : List (List String))
    (hsep : sep ≠ '\n')
    (hne : rows ≠ [])
    (hrow : ∀ r ∈ rows, r ≠ [] ∧
      ∀ fld ∈ r, '\n' ∉ fld.data ∧ sep ∉ fld.data)
    (hnonempty : intercalateChar '\n'
      (rows.map (fun row => intercalateChar sep (row.map String.data))) ≠ []) :
    parse_csv sep (String.mk (intercalateChar '\n'
      (rows.map (fun row => intercalateChar sep (row.map String.data))))) =
      rows := by
  unfold parse_csv
  rw [if_neg (string_mk_ne_empty _ hnonempty)]
  have hdata : (String.mk (intercalateChar '\n'
      (rows.map (fun row => intercalateChar sep (row.map String.data))))).data =
      intercalateChar '\n'
        (rows.map (fun row => intercalateChar sep (row.map String.data))) := rfl
  rw [hdata]
  have hlines : ∀ line ∈ rows.map
      (fun row => intercalateChar sep (row.map String.data)), '\n' ∉ line := by
    intro line hline hnl
    rw [List.mem_map] at hline
    obtain ⟨r, hr, rfl⟩ := hline
    rcases mem_intercalateChar sep _ '\n' hnl with h | ⟨l, hl, hx⟩
    · exact hsep h.symm
    · rw [List.mem_map] at hl
      obtain ⟨fld, hfld, rfl⟩ := hl
      exact ((hrow r hr).2 fld hfld).1 hx
  rw [splitChar_intercalate '\n' _ (by simpa using hne) hlines]
  rw [List.map_map]
  refine List.map_congr_left ?_ |>.trans (List.map_id rows)
  intro r hr
  have hfields : ∀ fld ∈ r.map String.data, sep ∉ fld := by
    intro fld hfld
    rw [List.mem_map] at hfld
    obtain ⟨f, hf, rfl⟩ := hfld
    exact ((hrow r hr).2 f hf).2
  show (splitChar sep (intercalateChar sep (r.map String.data))).map
      String.mk = r
  rw [splitChar_intercalate sep _ (by simpa using (hrow r hr).1) hfields,
    List.map_map]
  refine (List.map_congr_left ?_).trans (List.map_id r)
  intro f _
  rfl

theorem mem_keys_assocSet (k : String) (v : TreeNode) (ch : TChildren)
    (x : String) (h : x ∈ keysC (assocSet k v ch)) : x = k ∨ x ∈ keysC ch := by
  unfold keysC at *
  rw [List.mem_map] at h
  obtain ⟨e, he, rfl⟩ := h
  rcases mem_assocSet k v ch e he with rfl | he'
  · exact Or.inl rfl
  · exact Or.inr (List.mem_map_of_mem _ he')

theorem keys_assocSet_toFinset (k : String) (v : TreeNode) :
    ∀ ch : TChildren, (keysC (assocSet k v ch)).toFinset =
      insert k (keysC ch).toFinset
  | .nil => by simp [assocSet, keysC, TChildren.toListC]
  | .cons n c rest => by
      rw [assocSet]
      by_cases hk : n = k
      · rw [if_pos hk]
        subst hk
        simp only [keysC, TChildren.toListC, List.map_cons, List.toFinset_cons]
        ext y
        simp
      · rw [if_neg hk]
        simp only [keysC, TChildren.toListC, List.map_cons, List.toFinset_cons]
        rw [show (TChildren.toListC (assocSet k v rest)).map Prod.fst =
          keysC (assocSet k v rest) from rfl]
        rw [keys_assocSet_toFinset k v rest]
        rw [Finset.Insert.comm]
        rfl

theorem keys_leaves_fold_toFinset :
    ∀ (docs : List (String × String)) (ch : TChildren),
      (keysC (leaves_fold docs ch)).toFinset =
        (docs.map Prod.fst).toFinset ∪ (keysC ch).toFinset := by
  intro docs
  induction docs with
  | nil => intro ch; simp [leaves_fold]
  | cons d rest ih =>
      intro ch
      show (keysC (leaves_fold rest
        (assocSet d.1 (.mk d.1 (some d.2) .nil) ch))).toFinset = _
      rw [ih, keys_assocSet_toFinset]
      ext y
      simp
      try tauto

theorem mem_keys_leaves_fold :
    ∀ (docs : List (String × String)) (ch : TChildren) (x : String),
      x ∈ keysC (leaves_fold docs ch) →
        x ∈ docs.map Prod.fst ∨ x ∈ keysC ch := by
  intro docs
  induction docs with
  | nil => intro ch x h; exact Or.inr h
  | cons d rest ih =>
      intro ch x h
      rcases ih _ x h with h | h
      · exact Or.inl (by rw [List.map_cons]; exact List.mem_cons_of_mem _ h)
      · rcases mem_keys_assocSet d.1 _ ch x h with rfl | h
        · exact Or.inl (by simp)
        · exact Or.inr h

theorem keys_leaves_fold_ne_nil (docs : List (String × String))
    (h : docs ≠ []) : keysC (leaves_fold docs .nil) ≠ [] := by
  intro hc
  have h2 := keys_leaves_fold_toFinset docs .nil
  rw [hc] at h2
  obtain ⟨d, rest, rfl⟩ := List.exists_cons_of_ne_nil h
  have hd : d.1 ∈ (([] : List String)).toFinset := by
    rw [h2]
    simp
  simp at hd

theorem intercalate_lines_ne_nil (sep : Char) :
    ∀ rows : List (List String), rows ≠ [] →
      (∀ r ∈ rows, ∃ n, r = [n] ∧ n ≠ "") →
      intercalateChar '\n'
        (rows.map (fun row => intercalateChar sep (row.map String.data))) ≠ []
  | [], h, _ => absurd rfl h
  | [r], _, hshape => by
      obtain ⟨n, rfl, hn⟩ := hshape r (by simp)
      show n.data ≠ []
      intro hc
      refine hn ?_
      cases n with
      | mk l =>
          rw [show l = [] from hc]
  | r :: r2 :: rest, _, _ => by
      show intercalateChar sep (r.map String.data) ++ '\n' ::
        intercalateChar '\n' ((r2 :: rest).map
          (fun row => intercalateChar sep (row.map String.data))) ≠ []
      simp

/-- **C7 (amended).** Table export followed by CSV parsing is an exact
round trip only in the absence of folder nodes: for documents whose
breadcrumb paths are all empty (titles non-empty, free of the separator
and of newlines, filenames hidden), parsing the export with the
configured separator reconstructs exactly the original set of
(breadcrumb-path, title) pairs; any folder node contributes an extra
path-only row (and `show_filenames` appends the file path to the title
field), as the counterexample shows, so the general claim fails. -/
theorem c7_table_roundtrip (sep : Char) (docs : List (String × String))
    (hne : docs ≠ []) (hsep : sep ≠ '\n')
    (hok : ∀ d ∈ docs, d.1 ≠ "" ∧ '\n' ∉ d.1.data ∧ sep ∉ d.1.data) :
    pairs_of_rows (parse_csv sep (export_table sep false
        (build_tree (docs.map (fun d => ([], d.1, d.2)))))) =
      doc_pairs (docs.map (fun d => ([], d.1, d.2))) := by
  rw [build_flat]
  have hperm := rows_flat_perm docs
  have hnamesprop : ∀ n ∈ keysC (leaves_fold docs .nil),
      n ≠ "" ∧ '\n' ∉ n.data ∧ sep ∉ n.data := by
    intro n hn
    rcases mem_keys_leaves_fold docs .nil n hn with h | h
    · rw [List.mem_map] at h
      obtain ⟨d, hd, rfl⟩ := h
      exact hok d hd
    · simp [keysC, TChildren.toListC] at h
  have hkeysne := keys_leaves_fold_ne_nil docs hne
  have hrowsne : generate_table_format false
      (.mk "root" none (leaves_fold docs .nil)) ≠ [] := by
    intro hc
    rw [hc] at hperm
    have h0 : (keysC (leaves_fold docs .nil)).map (fun n => [n]) = [] :=
      hperm.symm.eq_nil
    rw [List.map_eq_nil_iff] at h0
    exact hkeysne h0
  have hrowshape : ∀ r ∈ generate_table_format false
      (.mk "root" none (leaves_fold docs .nil)),
      ∃ n ∈ keysC (leaves_fold docs .nil), r = [n] := by
    intro r hr
    have h1 := hperm.mem_iff.mp hr
    rw [List.mem_map] at h1
    obtain ⟨n, hn, rfl⟩ := h1
    exact ⟨n, hn, rfl⟩
  have hrowcond : ∀ r ∈ generate_table_format false
      (.mk "root" none (leaves_fold docs .nil)),
      r ≠ [] ∧ ∀ fld ∈ r, '\n' ∉ fld.data ∧ sep ∉ fld.data := by
    intro r hr
    obtain ⟨n, hn, rfl⟩ := hrowshape r hr
    refine ⟨by simp, ?_⟩
    intro fld hfld
    rw [List.mem_singleton] at hfld
    rw [hfld]
    exact (hnamesprop n hn).2
  have hlinesne := intercalate_lines_ne_nil sep
    (generate_table_format false (.mk "root" none (leaves_fold docs .nil)))
    hrowsne
    (by
      intro r hr
      obtain ⟨n, hn, rfl⟩ := hrowshape r hr
      exact ⟨n, rfl, (hnamesprop n hn).1⟩)
  rw [show export_table sep false (.mk "root" none (leaves_fold docs .nil)) =
      String.mk (intercalateChar '\n'
        ((generate_table_format false
          (.mk "root" none (leaves_fold docs .nil))).map
          (fun row => intercalateChar sep (row.map String.data)))) from rfl]
  rw [parse_csv_export_rows sep _ hsep hrowsne hrowcond hlinesne]
  unfold pairs_of_rows doc_pairs
  rw [List.toFinset_eq_of_perm _ _ (hperm.map row_pair)]
  rw [List.map_map]
  rw [show (row_pair ∘ fun n => [n]) =
      fun n => (([] : List String), n) from by
    funext n
    simp [row_pair]]
  rw [show (docs.map (fun d => ([], d.1, d.2))).map
      (fun d => (d.1, d.2.1)) =
      (docs.map Prod.fst).map (fun n => (([] : List String), n)) from by
    rw [List.map_map, List.map_map]
    rfl]
  have hkeysF : (keysC (leaves_fold docs .nil)).toFinset =
      (docs.map Prod.fst).toFinset := by
    rw [keys_leaves_fold_toFinset]
    simp [keysC, TChildren.toListC]
  ext y
  simp only [List.mem_toFinset]
  rw [List.mem_map, List.mem_map]
  constructor
  · rintro ⟨n, hn, rfl⟩
    refine ⟨n, ?_, rfl⟩
    rw [← List.mem_toFinset, hkeysF, List.mem_toFinset] at hn
    exact hn
  · rintro ⟨n, hn, rfl⟩
    refine ⟨n, ?_, rfl⟩
    rw [← List.mem_toFinset, ← hkeysF, List.mem_toFinset] at hn
    exact hn

/-- Witness for `c7_table_roundtrip`: one document with an empty
breadcrumb path round-trips exactly. -/
theorem c7_table_roundtrip_witness :
    pairs_of_rows (parse_csv ';' (export_table ';' false
        (build_tree ([("T", "p")].map (fun d => ([], d.1, d.2)))))) =
      doc_pairs ([("T", "p")].map (fun d => ([], d.1, d.2))) :=
  c7_table_roundtrip ';' [("T", "p")] (by decide) (by decide)
    (by intro d hd; simp at hd; subst hd; refine ⟨by decide, by decide, by decide⟩)
